import Mathlib

/-!
# Verification of the RML-style CSV-to-RDF mapping interpreter

Shallow embedding of `src/rdf-processor.js` (the mapping core of the
KG-template repository): CSV row post-processing into dual flat/nested
views (`parseCSV`, lines 93-144), subject-template expansion, dotted
reference resolution and triple generation (`processCSVWithRML`, lines
149-260), and the orchestration entry point (`doMapping`, lines 265-279).

Modelling conventions:
  * JavaScript strings are Lean `String`s; character-level algorithms are
    carried out on `String.data` (`List Char`) with structural recursions
    so that everything kernel-evaluates.
  * JavaScript row values are `JVal`: strings, numbers (only string
    lengths arise, so `Nat`), built-in function objects (identified by
    prototype and name), and plain objects as association lists with JS
    insertion-order update semantics (`objSet` updates in place or
    appends).
  * Property reads follow JavaScript: on a plain object, own properties
    then the `Object.prototype` members; on a primitive string, the boxed
    `length`, canonical character indices (UTF-16 code units) and the
    `String.prototype` members; on a number, the `Number.prototype`
    members; on a built-in function, properties written onto it (see
    below) then the `Function.prototype` members.
  * Built-in function objects are shared (`"a".charAt` and `"b".charAt`
    are one object), so property writes on them are global state: a
    pollution table `PState` keyed by (prototype, function, property),
    threaded through row construction and read by every later property
    access.  A write whose target is a primitive throws a strict-mode
    `TypeError` (the source is an ES module); writes on objects and
    functions succeed.
  * Documented model cuts, none load-bearing for the claims: own `name`/
    `length` of built-in functions, the `__proto__` accessor, `Symbol`
    keys and legacy `__define...__` members read as absent; a lone
    surrogate code unit is rendered as an (always non-empty, hence
    equally truthy) one-character string; pollution is threaded across
    the rows of one parsed source, not across distinct sources of a run.
  * Exceptions are `Except String` / `Option`; a thrown JS error is
    `Except.error` and aborts exactly as far as the JS `try`/rethrow
    structure propagates it.
  * The external collaborators (`csv-parse`, the N3 Turtle parser) and
    the JS builtins (`encodeURIComponent`, `String.prototype.replace`,
    `split`, property access) are not in `src/`; they are modelled from
    their specifications and marked as such.
-/

/-- A JavaScript value reachable while processing CSV rows: a string, a
number (string lengths; JS numbers arising here are small naturals), a
shared built-in function object identified by its prototype and name, or
a plain object (`rdf-processor.js` lines 104-134, 213-235). -/
inductive JVal where
  | str : String → JVal
  | num : Nat → JVal
  | func : String → String → JVal
  | obj : List (String × JVal) → JVal

abbrev Obj := List (String × JVal)

/-- Identity of a property slot on a shared built-in function object:
(prototype, function name, property key). -/
abbrev PKey := String × String × String

/-- The global pollution state: properties that row construction has
written onto shared built-in function objects. -/
abbrev PState := List (PKey × JVal)

/-- Own-property read on a plain object: first binding of the key. -/
def objGet : Obj → String → Option JVal
  | [], _ => none
  | (k', v) :: rest, k => if k' = k then some v else objGet rest k

/-- Own-property write on a plain object: update in place, or append
keeping insertion order (`record[key] = value`, `current[k] = ...`). -/
def objSet : Obj → String → JVal → Obj
  | [], k, v => [(k, v)]
  | (k', v') :: rest, k, v =>
    if k' = k then (k', v) :: rest else (k', v') :: objSet rest k v

/-- Read of a property written onto a built-in function object. -/
def pGet : PState → PKey → Option JVal
  | [], _ => none
  | (pk, v) :: rest, k => if pk = k then some v else pGet rest k

/-- Write of a property onto a built-in function object. -/
def pSet : PState → PKey → JVal → PState
  | [], k, v => [(k, v)]
  | (pk, v') :: rest, k, v =>
    if pk = k then (pk, v) :: rest else (pk, v') :: pSet rest k v

/-- JS truthiness: the empty string and zero are falsy; every other
string, every nonzero number, every function and every object is truthy. -/
def truthyV : JVal → Bool
  | JVal.str s => !(s == "")
  | JVal.num n => !(n == 0)
  | JVal.func _ _ => true
  | JVal.obj _ => true

/-- JS truthiness of a possibly-absent value (`undefined` is falsy). -/
def truthyOpt : Option JVal → Bool
  | none => false
  | some v => truthyV v

/-- Uppercase hexadecimal digit of `n % 16`. -/
def hexDigit (n : Nat) : Char :=
  match n % 16 with
  | 0 => '0' | 1 => '1' | 2 => '2' | 3 => '3' | 4 => '4' | 5 => '5'
  | 6 => '6' | 7 => '7' | 8 => '8' | 9 => '9' | 10 => 'A' | 11 => 'B'
  | 12 => 'C' | 13 => 'D' | 14 => 'E' | _ => 'F'

/-- Decimal digit character of `d % 10`. -/
def digitChar (d : Nat) : Char := hexDigit (d % 10)

/-- Decimal digits of a natural number, most significant first; the fuel
is an upper bound on the digit count (structural, so it evaluates). -/
def natDigitsAux : Nat → Nat → List Char
  | 0, _ => []
  | fuel + 1, n => if n < 10 then [digitChar n] else natDigitsAux fuel (n / 10) ++ [digitChar n]

/-- Decimal rendering of a natural number, as JS renders the small
integer numbers arising here. -/
def natToString (n : Nat) : String := String.mk (natDigitsAux (n + 1) n)

/-- JS default string coercion (`String(value)`), as applied by
`encodeURIComponent` and `N3.DataFactory.literal` to row values. -/
def jsToString : JVal → String
  | JVal.str s => s
  | JVal.num n => natToString n
  | JVal.func _ name => "function " ++ name ++ "() \x7b [native code] \x7d"
  | JVal.obj _ => "[object Object]"

/-- Principal members of `String.prototype` (ES2023), all function-valued
and truthy on a boxed string read. -/
def stringProtoMethodNames : List String :=
  ["constructor", "anchor", "at", "big", "blink", "bold", "charAt", "charCodeAt",
   "codePointAt", "concat", "endsWith", "fontcolor", "fontsize", "fixed",
   "includes", "indexOf", "italics", "lastIndexOf", "link", "localeCompare",
   "match", "matchAll", "normalize", "padEnd", "padStart", "repeat", "replace",
   "replaceAll", "search", "slice", "small", "split", "startsWith", "strike",
   "sub", "substr", "substring", "sup", "toLocaleLowerCase",
   "toLocaleUpperCase", "toLowerCase", "toString", "toUpperCase", "trim",
   "trimEnd", "trimLeft", "trimRight", "trimStart", "valueOf"]

/-- Principal members of `Object.prototype`, inherited by every plain
object (and, transitively, by boxed primitives). -/
def objectProtoMethodNames : List String :=
  ["constructor", "hasOwnProperty", "isPrototypeOf", "propertyIsEnumerable",
   "toLocaleString", "toString", "valueOf"]

/-- Principal members of `Number.prototype`. -/
def numberProtoMethodNames : List String :=
  ["constructor", "toExponential", "toFixed", "toLocaleString", "toPrecision",
   "toString", "valueOf"]

/-- Principal members of `Function.prototype`. -/
def functionProtoMethodNames : List String :=
  ["constructor", "apply", "bind", "call", "toString"]

def isDigitChar (c : Char) : Bool := '0' ≤ c && c ≤ '9'

def digitsToNat (l : List Char) : Nat :=
  l.foldl (fun a c => a * 10 + (c.toNat - 48)) 0

/-- A canonical array-index property key: digits with no leading zero. -/
def canonicalIndex (k : String) : Option Nat :=
  match k.data with
  | [] => none
  | [c] => if isDigitChar c then some (c.toNat - 48) else none
  | c :: cs =>
    if ('1' ≤ c && c ≤ '9') && cs.all isDigitChar then some (digitsToNat (c :: cs))
    else none

/-- UTF-16 code units of one code point. -/
def utf16CodeUnits (c : Char) : List Nat :=
  let n := c.toNat
  if n < 65536 then [n]
  else [55296 + (n - 65536) / 1024, 56320 + (n - 65536) % 1024]

/-- UTF-16 code units of a string. -/
def utf16Units (s : String) : List Nat := s.data.flatMap utf16CodeUnits

/-- JS `s.length`: the UTF-16 code-unit count. -/
def jsStrLength (s : String) : Nat := (utf16Units s).length

/-- JS indexed character read `s[i]`: the one-unit string at that index
(a lone surrogate unit is rendered approximately; it stays a non-empty,
truthy one-character string either way). -/
def jsStrIndex (s : String) (i : Nat) : Option JVal :=
  ((utf16Units s).get? i).map (fun u => JVal.str (String.mk [Char.ofNat u]))

/-- Boxed property read on a primitive string: own `length` and character
indices first, then `String.prototype`, then `Object.prototype`. -/
def jsStrProp (s : String) (k : String) : Option JVal :=
  if k = "length" then some (JVal.num (jsStrLength s))
  else
    match canonicalIndex k with
    | some i => jsStrIndex s i
    | none =>
      if k ∈ stringProtoMethodNames then some (JVal.func "String.prototype" k)
      else if k ∈ objectProtoMethodNames then some (JVal.func "Object.prototype" k)
      else none

/-- Boxed property read on a primitive number. -/
def jsNumProp (k : String) : Option JVal :=
  if k ∈ numberProtoMethodNames then some (JVal.func "Number.prototype" k)
  else if k ∈ objectProtoMethodNames then some (JVal.func "Object.prototype" k)
  else none

/-- Inherited read on a plain object after an own miss. -/
def objProtoProp (k : String) : Option JVal :=
  if k ∈ objectProtoMethodNames then some (JVal.func "Object.prototype" k)
  else none

/-- Inherited read on a built-in function object after a polluted-slot
miss (own `name`/`length` of builtins are outside the model). -/
def funcProtoProp (k : String) : Option JVal :=
  if k ∈ functionProtoMethodNames then some (JVal.func "Function.prototype" k)
  else if k ∈ objectProtoMethodNames then some (JVal.func "Object.prototype" k)
  else none

/-- Full JS property read `value[k]` as performed by lines 110-122 and
221-229: own properties (including pollution on shared functions) first,
then boxed/prototype members. -/
def getProp (ps : PState) : JVal → String → Option JVal
  | JVal.str s, k => jsStrProp s k
  | JVal.num _, k => jsNumProp k
  | JVal.func proto name, k =>
    match pGet ps (proto, name, k) with
    | some v => some v
    | none => funcProtoProp k
  | JVal.obj o, k =>
    match objGet o k with
    | some v => some v
    | none => objProtoProp k

/-- The value used for a template variable: `row[key] || ''`, coerced to a
string by `encodeURIComponent` (line 185). -/
def jsValueOrEmpty : Option JVal → String
  | none => ""
  | some v => if truthyV v then jsToString v else ""

/-- The `{` character, kept out of string literals. -/
def lbrace : Char := Char.ofNat 123

/-- The `}` character, kept out of string literals. -/
def rbrace : Char := Char.ofNat 125

/-- `includes(c)` on a JS string, on the character list. -/
def includesCharL (c : Char) : List Char → Bool
  | [] => false
  | a :: rest => a == c || includesCharL c rest

/-- JS `String.prototype.split(c)` for a single-character separator
(`reference.split('.')`, `key.split('.')`): split at every occurrence,
keeping empty groups. -/
def splitOnChar (c : Char) : List Char → List (List Char)
  | [] => [[]]
  | a :: rest =>
    match splitOnChar c rest with
    | [] => [[]]
    | g :: gs => if a = c then [] :: g :: gs else (a :: g) :: gs

/-- Inverse of `splitOnChar`: re-join the groups with the separator. -/
def joinOnChar (c : Char) : List (List Char) → List Char
  | [] => []
  | [g] => g
  | g :: g' :: gs => g ++ c :: joinOnChar c (g' :: gs)

/-- `s.split('.')` at the `String` level. -/
def jsSplit (s : String) : List String :=
  (splitOnChar '.' s.data).map String.mk

/-- First-occurrence string replacement on character lists: JS
`String.prototype.replace(pattern, replacement)` with a *string* pattern
replaces only the first occurrence (the replacement values produced by
`encodeURIComponent` contain no `$`, so JS replacement patterns do not
arise). -/
def replaceFirstL (pat r : List Char) : List Char → List Char
  | [] => if pat = [] then r else []
  | a :: t =>
    if pat.isPrefixOf (a :: t) then r ++ (a :: t).drop pat.length
    else a :: replaceFirstL pat r t

/-- JS `uri.replace(pat, r)` on Lean strings. -/
def replaceFirst (t pat r : String) : String :=
  String.mk (replaceFirstL pat.data r.data t.data)

/-- The template placeholder literal built by the code: `'{' + key + '}'`
(line 186). -/
def placeholder (key : String) : String :=
  String.mk (lbrace :: key.data ++ [rbrace])

/-- The character set `encodeURIComponent` leaves unescaped:
`A-Z a-z 0-9 - _ . ! ~ * ' ( )`. -/
def isUnreservedURI (c : Char) : Bool :=
  ('A' ≤ c && c ≤ 'Z') || ('a' ≤ c && c ≤ 'z') || ('0' ≤ c && c ≤ '9') ||
  c == '-' || c == '_' || c == '.' || c == '!' || c == '~' || c == '*' ||
  c == Char.ofNat 39 || c == '(' || c == ')'

/-- UTF-8 bytes of a code point, as natural numbers. -/
def utf8Bytes (c : Char) : List Nat :=
  let n := c.toNat
  if n < 128 then [n]
  else if n < 2048 then [192 + n / 64, 128 + n % 64]
  else if n < 65536 then [224 + n / 4096, 128 + (n / 64) % 64, 128 + n % 64]
  else [240 + n / 262144, 128 + (n / 4096) % 64, 128 + (n / 64) % 64, 128 + n % 64]

/-- Percent-encoding of one character as in `encodeURIComponent`. -/
def pctEncodeChar (c : Char) : List Char :=
  if isUnreservedURI c then [c]
  else (utf8Bytes c).flatMap (fun b => ['%', hexDigit (b / 16), hexDigit (b % 16)])

/-- JS builtin `encodeURIComponent`, modelled per ECMA-262: unreserved
characters kept, all others percent-encoded from their UTF-8 bytes. -/
def encodeURIComponent (s : String) : String :=
  String.mk (s.data.flatMap pctEncodeChar)

/-- Subject-template expansion (`rdf-processor.js` lines 180-187): for each
CSV header, `replace` the placeholder `{key}` with the percent-encoded
value `row[key] || ''`; the row read is a full JS property read. -/
def resolveSubject (ps : PState) (template : String) (headers : List String)
    (row : Obj) : String :=
  headers.foldl
    (fun uri key =>
      replaceFirst uri (placeholder key)
        (encodeURIComponent (jsValueOrEmpty (getProp ps (JVal.obj row) key))))
    template

/-- Flat field lookup with empty default: `row[reference] || ''`
(lines 226 and 234), again a full JS property read on the row object. -/
def flatLookup (ps : PState) (row : Obj) (k : String) : JVal :=
  match getProp ps (JVal.obj row) k with
  | some v => if truthyV v then v else JVal.str ""
  | none => JVal.str ""

/-- The nested-walk loop of lines 221-229: descend while
`current && current[parts[i]]` is truthy; on failure break out with the
full dotted string as a flat key. -/
def walkGo (ps : PState) (row : Obj) (fullRef : String) : JVal → List String → JVal
  | current, [] => current
  | current, p :: rest =>
    if truthyV current && truthyOpt (getProp ps current p) then
      walkGo ps row fullRef ((getProp ps current p).getD (JVal.str "")) rest
    else flatLookup ps row fullRef

/-- Object-reference resolution (lines 213-235): dotted references walk
JS property reads with flat-key fallback, plain references are direct
lookups with empty default. -/
def resolveReference (ps : PState) (row : Obj) (reference : String) : JVal :=
  if includesCharL '.' reference.data then
    walkGo ps row reference (JVal.obj row) (jsSplit reference)
  else flatLookup ps row reference

/-- Modelled from the spec: the nested row view as *data* (spec section 3,
"a derived nested view built by splitting dotted field names"): walking
own properties of plain objects only, with no boxed or prototype reads.
This is the specification's notion of the nested view, stated here to be
compared against the program's walk. -/
def strictWalk : JVal → List String → Option JVal
  | v, [] => some v
  | JVal.obj o, p :: rest =>
    match objGet o p with
    | some w => strictWalk w rest
    | none => none
  | JVal.str _, _ :: _ => none
  | JVal.num _, _ :: _ => none
  | JVal.func _ _, _ :: _ => none

/-- Truthiness-guarded walk over full JS property reads: succeeds exactly
when the loop of lines 221-229 reaches the end without falling back. -/
def truthyWalk (ps : PState) : JVal → List String → Option JVal
  | v, [] => some v
  | v, p :: rest =>
    match getProp ps v p with
    | some w => if truthyV w then truthyWalk ps w rest else none
    | none => none

/-- One dotted-header insertion of `parseCSV` (lines 110-122), at an
arbitrary current value: read `current[parts[i]]` (a full JS property
read), replace a falsy result with a fresh `\x7b\x7d`, descend, and set
the final property.  Mutation is rendered functionally: a descent into
an own plain-object child stores the rebuilt child back in its slot; a
descent into a shared built-in function routes writes into the pollution
state; a descent into a primitive performs no write until the inevitable
property write on a primitive, which throws a strict-mode `TypeError`
(`none`) - unless a boxed read first reaches a function, where the write
lands successfully. -/
def insertInto (ps : PState) : JVal → List String → String → Option (JVal × PState)
  | cur, [], _ => some (cur, ps)
  | cur, [k], value =>
    match cur with
    | JVal.obj o => some (JVal.obj (objSet o k (JVal.str value)), ps)
    | JVal.func proto name =>
      some (JVal.func proto name, pSet ps (proto, name, k) (JVal.str value))
    | JVal.str _ => none
    | JVal.num _ => none
  | cur, k :: r :: rs, value =>
    match cur with
    | JVal.obj o =>
      match objGet o k with
      | some v =>
        if truthyV v then
          match v with
          | JVal.obj co =>
            match insertInto ps (JVal.obj co) (r :: rs) value with
            | some (v', ps') => some (JVal.obj (objSet o k v'), ps')
            | none => none
          | other =>
            match insertInto ps other (r :: rs) value with
            | some (_, ps') => some (JVal.obj o, ps')
            | none => none
        else
          match insertInto ps (JVal.obj []) (r :: rs) value with
          | some (v', ps') => some (JVal.obj (objSet o k v'), ps')
          | none => none
      | none =>
        match objProtoProp k with
        | some f =>
          match insertInto ps f (r :: rs) value with
          | some (_, ps') => some (JVal.obj o, ps')
          | none => none
        | none =>
          match insertInto ps (JVal.obj []) (r :: rs) value with
          | some (v', ps') => some (JVal.obj (objSet o k v'), ps')
          | none => none
    | JVal.func proto name =>
      match pGet ps (proto, name, k) with
      | some v =>
        if truthyV v then
          match v with
          | JVal.obj co =>
            match insertInto ps (JVal.obj co) (r :: rs) value with
            | some (v', ps') =>
              some (JVal.func proto name, pSet ps' (proto, name, k) v')
            | none => none
          | other =>
            match insertInto ps other (r :: rs) value with
            | some (_, ps') => some (JVal.func proto name, ps')
            | none => none
        else
          match insertInto ps (JVal.obj []) (r :: rs) value with
          | some (v', ps') =>
            some (JVal.func proto name, pSet ps' (proto, name, k) v')
          | none => none
      | none =>
        match funcProtoProp k with
        | some f =>
          match insertInto ps f (r :: rs) value with
          | some (_, ps') => some (JVal.func proto name, ps')
          | none => none
        | none =>
          match insertInto ps (JVal.obj []) (r :: rs) value with
          | some (v', ps') =>
            some (JVal.func proto name, pSet ps' (proto, name, k) v')
          | none => none
    | JVal.str s =>
      match jsStrProp s k with
      | some v =>
        if truthyV v then
          match insertInto ps v (r :: rs) value with
          | some (_, ps') => some (JVal.str s, ps')
          | none => none
        else none
      | none => none
    | JVal.num n =>
      match jsNumProp k with
      | some v =>
        if truthyV v then
          match insertInto ps v (r :: rs) value with
          | some (_, ps') => some (JVal.num n, ps')
          | none => none
        else none
      | none => none

/-- Nested insertion rooted at the row object being built. -/
def insertNested (ps : PState) (o : Obj) (parts : List String) (value : String) :
    Option (Obj × PState) :=
  match insertInto ps (JVal.obj o) parts value with
  | some (JVal.obj o', ps') => some (o', ps')
  | some _ => none
  | none => none

/-- Pass 1 of row post-processing (lines 106-126): dotted keys build the
nested structure (possibly polluting shared built-ins), plain keys are
copied directly. -/
def buildNested : List (String × String) → Obj → PState → Option (Obj × PState)
  | [], o, ps => some (o, ps)
  | (k, v) :: rest, o, ps =>
    match (if includesCharL '.' k.data
           then insertNested ps o (jsSplit k) v
           else some (objSet o k (JVal.str v), ps)) with
    | none => none
    | some (o2, ps2) => buildNested rest o2 ps2

/-- Pass 2 of row post-processing (lines 129-131): copy every original flat
key over the nested structure, in key order. -/
def flatCopy : List (String × String) → Obj → Obj
  | [], o => o
  | kv :: rest, o => flatCopy rest (objSet o kv.1 (JVal.str kv.2))

/-- Full row post-processing of `parseCSV` (lines 105-134): nested pass
then flat copy, threading the pollution state; `none` is the strict-mode
`TypeError` when a write lands on a primitive. -/
def buildRow (ps : PState) (record : List (String × String)) :
    Option (Obj × PState) :=
  (buildNested record [] ps).map (fun op => (flatCopy record op.1, op.2))

/-- All rows of one source, threading pollution across rows in order. -/
def buildRows : List (List (String × String)) → PState → Option (List Obj × PState)
  | [], ps => some ([], ps)
  | r :: rest, ps =>
    match buildRow ps r with
    | none => none
    | some (row, ps2) =>
      match buildRows rest ps2 with
      | none => none
      | some (rows, ps3) => some (row :: rows, ps3)

/-- Character considered whitespace by field trimming. -/
def isWSChar (c : Char) : Bool := c == ' ' || c == '\r' || c == '\t'

/-- Trim both ends of a character list. -/
def trimL (l : List Char) : List Char :=
  ((l.dropWhile isWSChar).reverse.dropWhile isWSChar).reverse

/-- Pair headers with row fields: missing trailing fields become empty,
extra fields are ignored. -/
def zipRecord : List String → List String → List (String × String)
  | [], _ => []
  | h :: hs, [] => (h, "") :: zipRecord hs []
  | h :: hs, f :: fs => (h, f) :: zipRecord hs fs

/-- Modelled from the spec: the external CSV parsing collaborator
(`csv-parse` with `columns trim skip_empty_lines relax_column_count`,
not part of this repository).  Per spec 4.3: the first line defines
headers, fields are trimmed, empty lines are skipped, column-count
mismatches are tolerated (missing trailing fields empty, extra fields
ignored), and content with no header line at all cannot be parsed.
Quoted-field handling is not exercised by any property proved here. -/
def csvParseModel (content : String) : Except String (List (List (String × String))) :=
  let lines := (splitOnChar '\n' content.data).filter (fun l => !(trimL l == []))
  match lines with
  | [] => Except.error "SourceReadError: no header line"
  | headerLine :: dataLines =>
    let headers := (splitOnChar ',' headerLine).map (fun f => String.mk (trimL f))
    Except.ok (dataLines.map (fun line =>
      zipRecord headers ((splitOnChar ',' line).map (fun f => String.mk (trimL f)))))

/-- Parsed tabular source: original header order, post-processed rows, and
the pollution state row construction left behind (the state read by this
source's reference walks). -/
structure CSVData where
  headers : List String
  rows : List Obj
  pollution : PState

/-- `parseCSV` (lines 93-144): run the CSV collaborator, post-process
every record into the dual flat/nested view (threading pollution across
rows), and expose the first record's keys as headers; any thrown error
is rethrown to the caller. -/
def parseCSV (content : String) : Except String CSVData :=
  match csvParseModel content with
  | Except.error e => Except.error e
  | Except.ok records =>
    match buildRows records [] with
    | none => Except.error "TypeError: cannot create property on a primitive"
    | some (rows, ps) => Except.ok ⟨(records.head?.getD []).map Prod.fst, rows, ps⟩

/-- One descriptive triple of the parsed RML mapping graph (term values as
strings, as the code compares them). -/
structure Quad where
  subj : String
  pred : String
  obj : String
deriving DecidableEq, Repr

/-- One generated output triple: subject IRI, predicate IRI, object literal
(`N3.Quad(namedNode, namedNode, literal)`, lines 238-242). -/
structure OutTriple where
  subj : String
  pred : String
  obj : String
deriving DecidableEq, Repr

def rdfTypeIRI : String := "http://www.w3.org/1999/02/22-rdf-syntax-ns#type"
def rrTriplesMapIRI : String := "http://www.w3.org/ns/r2rml#TriplesMap"
def rmlLogicalSourceIRI : String := "http://semweb.mmlab.be/ns/rml#logicalSource"
def rmlSourceIRI : String := "http://semweb.mmlab.be/ns/rml#source"
def rrSubjectMapIRI : String := "http://www.w3.org/ns/r2rml#subjectMap"
def rrTemplateIRI : String := "http://www.w3.org/ns/r2rml#template"
def rrPredicateObjectMapIRI : String := "http://www.w3.org/ns/r2rml#predicateObjectMap"
def rrPredicateMapIRI : String := "http://www.w3.org/ns/r2rml#predicateMap"
def rrConstantIRI : String := "http://www.w3.org/ns/r2rml#constant"
def rrObjectMapIRI : String := "http://www.w3.org/ns/r2rml#objectMap"
def rmlReferenceIRI : String := "http://semweb.mmlab.be/ns/rml#reference"

/-- `store.getQuads(subject, predicate, null)` on the descriptive graph, in
source order (spec 4.1: "first object" picks the source-order match). -/
def getQuads (qs : List Quad) (s p : String) : List Quad :=
  qs.filter (fun q => q.subj == s && q.pred == p)

/-- The `TriplesMap` subjects found by `extractLogicalSources`
(lines 62-67), in quad order. -/
def extractTriplesMaps (qs : List Quad) : List String :=
  (qs.filter (fun q => q.pred == rdfTypeIRI && q.obj == rrTriplesMapIRI)).map
    (fun q => q.subj)

/-- The logical-source binding of a triples-map (lines 70-85): nested
`forEach` assignments, so the last `rml:source` of the last
`rml:logicalSource` with any source wins. -/
def logicalSourceOf (qs : List Quad) (tm : String) : Option String :=
  (getQuads qs tm rmlLogicalSourceIRI).foldl
    (fun acc lsq =>
      (getQuads qs lsq.obj rmlSourceIRI).foldl (fun _ sq => some sq.obj) acc)
    none

/-- Processing of one predicate-object map for one row (lines 190-242):
require a predicate map with a constant and an object map with a
reference (each `continue` yields no triple), resolve the object value
under the source's pollution state and emit one triple. -/
def processPOMap (qs : List Quad) (ps : PState) (row : Obj) (subjectURI : String)
    (poMap : String) : List OutTriple :=
  match (getQuads qs poMap rrPredicateMapIRI).head? with
  | none => []
  | some pmq =>
    match (getQuads qs pmq.obj rrConstantIRI).head? with
    | none => []
    | some pcq =>
      match (getQuads qs poMap rrObjectMapIRI).head? with
      | none => []
      | some omq =>
        match (getQuads qs omq.obj rmlReferenceIRI).head? with
        | none => []
        | some rq =>
          [⟨subjectURI, pcq.obj, jsToString (resolveReference ps row rq.obj)⟩]

/-- A predicate-object map that passes all four guards of lines 194-209:
a predicate map with a constant, and an object map with a reference. -/
def wellFormedPO (qs : List Quad) (poMap : String) : Prop :=
  ∃ pmq pcq omq rq,
    (getQuads qs poMap rrPredicateMapIRI).head? = some pmq ∧
    (getQuads qs pmq.obj rrConstantIRI).head? = some pcq ∧
    (getQuads qs poMap rrObjectMapIRI).head? = some omq ∧
    (getQuads qs omq.obj rmlReferenceIRI).head? = some rq

/-- Processing of one CSV row (lines 178-243): expand the subject template,
then accumulate the triples of each predicate-object map in order. -/
def processRow (qs : List Quad) (ps : PState) (headers : List String)
    (poMaps : List Quad) (template : String) (row : Obj) : List OutTriple :=
  let subjectURI := resolveSubject ps template headers row
  poMaps.foldl (fun acc pq => acc ++ processPOMap qs ps row subjectURI pq.obj) []

/-- Processing of one triples-map (lines 155-244): a missing or falsy
source key or falsy content skips the map with a warning; parse errors
propagate; a missing subject map or template skips the map; otherwise
every row contributes its triples in row order. -/
def processTriplesMap (qs : List Quad) (inputFiles : String → Option String)
    (tm : String) : Except String (List OutTriple) :=
  match logicalSourceOf qs tm with
  | none => Except.ok []
  | some sourceFile =>
    if sourceFile = "" then Except.ok []
    else
      match inputFiles sourceFile with
      | none => Except.ok []
      | some content =>
        if content = "" then Except.ok []
        else
          match parseCSV content with
          | Except.error e => Except.error e
          | Except.ok csvData =>
            match (getQuads qs tm rrSubjectMapIRI).head? with
            | none => Except.ok []
            | some smq =>
              match (getQuads qs smq.obj rrTemplateIRI).head? with
              | none => Except.ok []
              | some tq =>
                Except.ok (csvData.rows.foldl
                  (fun acc row =>
                    acc ++ processRow qs csvData.pollution csvData.headers
                      (getQuads qs tm rrPredicateObjectMapIRI) tq.obj row)
                  [])

/-- `processCSVWithRML` (lines 149-260): accumulate the triples of every
triples-map in descriptor order; a thrown parse error aborts the whole
run. -/
def processCSVWithRML (rmlQuads : List Quad)
    (inputFiles : String → Option String) : Except String (List OutTriple) :=
  (extractTriplesMaps rmlQuads).foldlM
    (fun acc tm =>
      (processTriplesMap rmlQuads inputFiles tm).map (fun ts => acc ++ ts))
    []

/-- `doMapping` (lines 265-279): parse the RML rules with the external N3
parser (abstracted as a function parameter) and process the mapping;
errors are logged and rethrown unchanged. -/
def doMapping (parseRMLRules : String → Except String (List Quad))
    (rmlString : String) (inputFiles : String → Option String) :
    Except String (List OutTriple) :=
  match parseRMLRules rmlString with
  | Except.error e => Except.error e
  | Except.ok rmlQuads => processCSVWithRML rmlQuads inputFiles

/-! ## Basic lemmas on the JS object model -/

theorem objGet_objSet (o : Obj) (k k' : String) (v : JVal) :
    objGet (objSet o k v) k' = if k = k' then some v else objGet o k' := by
  induction o with
  | nil =>
    simp [objSet, objGet]
  | cons kv rest ih =>
    obtain ⟨k0, v0⟩ := kv
    simp only [objSet]
    by_cases h0 : k0 = k
    · subst h0
      simp only [if_pos rfl, objGet]
      by_cases h1 : k0 = k' <;> simp [h1]
    · simp only [if_neg h0, objGet, ih]
      by_cases h1 : k0 = k'
      · subst h1
        have hk : ¬ (k = k0) := fun h => h0 h.symm
        simp [hk]
      · simp [h1]

theorem natDigitsAux_ne_nil (fuel n : Nat) : natDigitsAux (fuel + 1) n ≠ [] := by
  simp only [natDigitsAux]
  by_cases h : n < 10
  · simp [h]
  · simp [h]

/-- A truthy value never coerces to the empty string. -/
theorem jsToString_truthy_ne (v : JVal) (h : truthyV v = true) : jsToString v ≠ "" := by
  cases v with
  | str s =>
    intro hcon
    subst hcon
    exact absurd h (by decide)
  | num n =>
    intro hcon
    have h2 : natDigitsAux (n + 1) n = ([] : List Char) := congrArg String.data hcon
    exact absurd h2 (natDigitsAux_ne_nil n n)
  | func p name =>
    intro hcon
    simp only [jsToString] at hcon
    have h2 := congrArg String.data hcon
    rw [String.data_append, String.data_append,
      show ("" : String).data = [] from rfl] at h2
    have h3 := List.append_eq_nil.mp h2
    have h4 := List.append_eq_nil.mp h3.1
    exact absurd h4.1 (by decide)
  | obj o =>
    intro hcon
    simp only [jsToString] at hcon
    exact absurd hcon (by decide)

/-- A dotted string is not one of the `Object.prototype` member names. -/
theorem objProtoProp_dotted (k : String) (h : includesCharL '.' k.data = true) :
    objProtoProp k = none := by
  have hnotin : ¬ k ∈ objectProtoMethodNames := by
    intro hmem
    simp only [objectProtoMethodNames, List.mem_cons, List.not_mem_nil,
      or_false] at hmem
    rcases hmem with rfl | rfl | rfl | rfl | rfl | rfl | rfl <;>
      exact absurd h (by decide)
  simp [objProtoProp, hnotin]

theorem truthyWalk_truthy (ps : PState) (parts : List String) :
    ∀ v w, truthyV v = true → truthyWalk ps v parts = some w → truthyV w = true := by
  induction parts with
  | nil =>
    intro v w hv hw
    simp only [truthyWalk] at hw
    cases hw
    exact hv
  | cons p rest ih =>
    intro v w hv hw
    unfold truthyWalk at hw
    cases hp : getProp ps v p with
    | none => simp [hp] at hw
    | some u =>
      simp only [hp] at hw
      cases hu : truthyV u with
      | false => simp [hu] at hw
      | true =>
        simp [hu] at hw
        exact ih u w hu hw

theorem walkGo_eq (ps : PState) (row : Obj) (fullRef : String) (parts : List String) :
    ∀ cur, truthyV cur = true →
      walkGo ps row fullRef cur parts =
        (match truthyWalk ps cur parts with
         | some v => v
         | none => flatLookup ps row fullRef) := by
  induction parts with
  | nil =>
    intro cur hcur
    simp [walkGo, truthyWalk]
  | cons p rest ih =>
    intro cur hcur
    simp only [walkGo, truthyWalk, hcur, Bool.true_and]
    cases hp : getProp ps cur p with
    | none => simp [truthyOpt]
    | some w =>
      cases hw : truthyV w with
      | false => simp [truthyOpt, hw]
      | true =>
        simp only [truthyOpt, hw, if_true, Option.getD_some]
        exact ih w hw

/-- The loop of lines 221-229, started at the row object, is the
truthiness-guarded walk over JS property reads with flat-key fallback. -/
theorem resolveReference_eq_walk (ps : PState) (row : Obj) (ref : String)
    (hdot : includesCharL '.' ref.data = true) :
    resolveReference ps row ref =
      (match truthyWalk ps (JVal.obj row) (jsSplit ref) with
       | some v => v
       | none => flatLookup ps row ref) := by
  simp only [resolveReference, hdot, if_true]
  exact walkGo_eq ps row ref (jsSplit ref) (JVal.obj row) rfl

/-- Claim C2, counterexample: the walk of lines 221-229 does not read the
row's nested data view but full JS properties, so a segment can resolve
through a boxed built-in.  With row `\x7bname: "foo"\x7d` and reference
`name.length` the nested data view has no `length` segment and the flat
key `name.length` is absent, so the claim predicts the empty-string
value; the program instead descends into the boxed `length` and emits
the literal `3`. -/
theorem dotted_reference_counterexample :
    resolveReference [] [("name", JVal.str "foo")] "name.length" = JVal.num 3
    ∧ strictWalk (JVal.obj [("name", JVal.str "foo")]) (jsSplit "name.length") = none
    ∧ objGet [("name", JVal.str "foo")] "name.length" = none
    ∧ jsToString (JVal.num 3) = "3"
    ∧ ("3" : String) ≠ "" :=
  ⟨rfl, rfl, rfl, rfl, by decide⟩

/-- Claim C2, amended: dotted-reference resolution walks full JS property
reads (which include boxed-string built-ins such as `length`, character
indices and method names, not only the nested data view); whenever the
guarded walk fails at a segment - the read is absent or falsy, including
after a partial match - it falls back to the entire original dotted
string as a single flat key on the row; when the reference is absent
under both the walk and the flat key the value is the empty string, and
the enclosing predicate-object-map processing still emits one triple
carrying the empty literal rather than dropping it. -/
theorem dotted_reference_fallback (ps : PState) (row : Obj) (ref : String)
    (hdot : includesCharL '.' ref.data = true) :
    (∀ v, truthyWalk ps (JVal.obj row) (jsSplit ref) = some v →
        resolveReference ps row ref = v)
    ∧ (truthyWalk ps (JVal.obj row) (jsSplit ref) = none →
        resolveReference ps row ref = flatLookup ps row ref)
    ∧ (truthyWalk ps (JVal.obj row) (jsSplit ref) = none → objGet row ref = none →
        resolveReference ps row ref = JVal.str "")
    ∧ (∀ qs po subjectURI pmq pcq omq rq,
        (getQuads qs po rrPredicateMapIRI).head? = some pmq →
        (getQuads qs pmq.obj rrConstantIRI).head? = some pcq →
        (getQuads qs po rrObjectMapIRI).head? = some omq →
        (getQuads qs omq.obj rmlReferenceIRI).head? = some rq →
        rq.obj = ref →
        truthyWalk ps (JVal.obj row) (jsSplit ref) = none → objGet row ref = none →
        processPOMap qs ps row subjectURI po = [⟨subjectURI, pcq.obj, ""⟩]) := by
  have hres := resolveReference_eq_walk ps row ref hdot
  have habsent : truthyWalk ps (JVal.obj row) (jsSplit ref) = none →
      objGet row ref = none → resolveReference ps row ref = JVal.str "" := by
    intro hw hg
    rw [hres, hw]
    simp [flatLookup, getProp, hg, objProtoProp_dotted ref hdot]
  refine ⟨fun v hv => by rw [hres, hv], fun hw => by rw [hres, hw], habsent,
    fun qs po subjectURI pmq pcq omq rq h1 h2 h3 h4 h5 hw hg => ?_⟩
  simp only [processPOMap, h1, h2, h3, h4, h5]
  rw [habsent hw hg]
  rfl

theorem dotted_reference_fallback_witness :
    resolveReference [] [("room", JVal.obj [("name", JVal.str "101")]),
        ("room.name", JVal.str "101")] "room.name" = JVal.str "101" :=
  (dotted_reference_fallback [] [("room", JVal.obj [("name", JVal.str "101")]),
      ("room.name", JVal.str "101")] "room.name"
    (by decide)).1 (JVal.str "101") rfl

/-- Claim C10: During the walk, a segment whose value is the empty
string (or any falsy value) is treated as missing and triggers the flat
fallback; consequently a value obtained purely through the walk is never
the empty string, and an empty result can only come from the flat
lookup's default. -/
theorem nested_walk_never_empty (ps : PState) (row : Obj) (ref : String)
    (hdot : includesCharL '.' ref.data = true) :
    (∀ cur p rest v, getProp ps cur p = some v → truthyV v = false →
        truthyWalk ps cur (p :: rest) = none)
    ∧ (∀ v, truthyWalk ps (JVal.obj row) (jsSplit ref) = some v →
        resolveReference ps row ref = v ∧ jsToString v ≠ "")
    ∧ (resolveReference ps row ref = JVal.str "" →
        truthyWalk ps (JVal.obj row) (jsSplit ref) = none ∧
        resolveReference ps row ref = flatLookup ps row ref) := by
  have heq := resolveReference_eq_walk ps row ref hdot
  have hsome : ∀ v, truthyWalk ps (JVal.obj row) (jsSplit ref) = some v →
      resolveReference ps row ref = v ∧ jsToString v ≠ "" := by
    intro v hv
    refine ⟨by rw [heq, hv], ?_⟩
    have htr : truthyV v = true :=
      truthyWalk_truthy ps (jsSplit ref) (JVal.obj row) v rfl hv
    exact jsToString_truthy_ne v htr
  refine ⟨fun cur p rest v hp hv => ?_, hsome, fun hempty => ?_⟩
  · simp [truthyWalk, hp, hv]
  · cases hw : truthyWalk ps (JVal.obj row) (jsSplit ref) with
    | some v =>
      have h1 := (hsome v hw).1
      have hv : v = JVal.str "" := by rw [← h1]; exact hempty
      have : jsToString v = "" := by rw [hv]; rfl
      exact absurd this (hsome v hw).2
    | none => exact ⟨rfl, by rw [heq, hw]⟩

theorem nested_walk_never_empty_witness :
    resolveReference [] [("a", JVal.obj [("b", JVal.str "x")])] "a.b" = JVal.str "x" ∧
      jsToString (JVal.str "x") ≠ "" :=
  (nested_walk_never_empty [] [("a", JVal.obj [("b", JVal.str "x")])] "a.b"
    (by decide)).2.1 (JVal.str "x") rfl

/-! ## Lemmas for subject-template expansion (C1) -/

theorem data_mk (l : List Char) : (String.mk l).data = l := rfl

theorem str_ext {a b : String} (h : a.data = b.data) : a = b :=
  congrArg String.mk h

/-- No `{` and no `}` occurs in the string. -/
def braceFree (s : String) : Prop := ∀ c ∈ s.data, c ≠ lbrace ∧ c ≠ rbrace

instance (s : String) : Decidable (braceFree s) := by
  unfold braceFree; infer_instance

theorem hexDigit_ne_brace (n : Nat) : hexDigit n ≠ lbrace ∧ hexDigit n ≠ rbrace := by
  unfold hexDigit
  split <;> exact ⟨by decide, by decide⟩

theorem encode_braceFree (s : String) : braceFree (encodeURIComponent s) := by
  intro c hc
  simp only [encodeURIComponent, data_mk] at hc
  rw [List.mem_flatMap] at hc
  obtain ⟨a, _, ha⟩ := hc
  unfold pctEncodeChar at ha
  by_cases hu : isUnreservedURI a
  · rw [if_pos hu] at ha
    simp only [List.mem_singleton] at ha
    subst ha
    constructor
    · intro h; rw [h] at hu; exact absurd hu (by decide)
    · intro h; rw [h] at hu; exact absurd hu (by decide)
  · rw [if_neg hu] at ha
    rw [List.mem_flatMap] at ha
    obtain ⟨b, _, hb⟩ := ha
    simp only [List.mem_cons, List.mem_singleton, List.not_mem_nil, or_false] at hb
    rcases hb with h | h | h
    · subst h; exact ⟨by decide, by decide⟩
    · subst h; exact hexDigit_ne_brace _
    · subst h; exact hexDigit_ne_brace _

theorem replaceFirstL_skip (c0 : Char) (pat' r : List Char) :
    ∀ p t, (∀ a ∈ p, a ≠ c0) →
      replaceFirstL (c0 :: pat') r (p ++ t) = p ++ replaceFirstL (c0 :: pat') r t := by
  intro p
  induction p with
  | nil => intro t _; simp
  | cons a p' ih =>
    intro t hp
    have ha : a ≠ c0 := hp a (by simp)
    have hpre : ((c0 :: pat').isPrefixOf (a :: (p' ++ t))) = false := by
      simp [List.isPrefixOf, Ne.symm ha]
    show replaceFirstL (c0 :: pat') r (a :: (p' ++ t))
      = a :: (p' ++ replaceFirstL (c0 :: pat') r t)
    simp only [replaceFirstL, hpre, Bool.false_eq_true, if_false]
    rw [ih t (fun x hx => hp x (by simp [hx]))]

theorem replaceFirstL_here (c0 : Char) (pat' r t : List Char) :
    replaceFirstL (c0 :: pat') r ((c0 :: pat') ++ t) = r ++ t := by
  have hpre : ((c0 :: pat').isPrefixOf (c0 :: (pat' ++ t))) = true := by
    have hsh : (c0 :: pat') ++ t = c0 :: (pat' ++ t) := by simp
    rw [← hsh]
    simp [List.isPrefixOf_iff_prefix]
  simp only [List.cons_append, replaceFirstL, hpre, if_true]
  simp [List.drop_left]

theorem replaceFirstL_no_lbrace (pat' r : List Char) :
    ∀ t, (∀ a ∈ t, a ≠ lbrace) → replaceFirstL (lbrace :: pat') r t = t := by
  intro t
  induction t with
  | nil => intro _; simp [replaceFirstL]
  | cons a t' ih =>
    intro ht
    have ha : a ≠ lbrace := ht a (by simp)
    have hpre : ((lbrace :: pat').isPrefixOf (a :: t')) = false := by
      simp [List.isPrefixOf, Ne.symm ha]
    simp only [replaceFirstL, hpre, Bool.false_eq_true, if_false]
    rw [ih (fun x hx => ht x (by simp [hx]))]

theorem key_not_prefix (k : List Char) :
    ∀ h s, (∀ a ∈ k, a ≠ rbrace) → (∀ a ∈ h, a ≠ rbrace) → k ≠ h →
      ((k ++ [rbrace]).isPrefixOf (h ++ rbrace :: s)) = false := by
  induction k with
  | nil =>
    intro h s _ hh hne
    cases h with
    | nil => exact absurd rfl hne
    | cons b h' =>
      have hb : b ≠ rbrace := hh b (by simp)
      simp [List.isPrefixOf, Ne.symm hb]
  | cons a k' ih =>
    intro h s hk hh hne
    cases h with
    | nil =>
      have ha : a ≠ rbrace := hk a (by simp)
      simp [List.isPrefixOf, ha]
    | cons b h' =>
      by_cases hab : a = b
      · subst hab
        simp only [List.cons_append, List.isPrefixOf, beq_self_eq_true, Bool.true_and]
        exact ih h' s (fun x hx => hk x (by simp [hx])) (fun x hx => hh x (by simp [hx]))
          (fun hcon => hne (by rw [hcon]))
      · simp [List.cons_append, List.isPrefixOf, hab]

theorem replaceFirst_other_L (p h s k r : List Char)
    (hp : ∀ a ∈ p, a ≠ lbrace) (hhl : ∀ a ∈ h, a ≠ lbrace) (hhr : ∀ a ∈ h, a ≠ rbrace)
    (hsl : ∀ a ∈ s, a ≠ lbrace) (hkr : ∀ a ∈ k, a ≠ rbrace) (hne : k ≠ h) :
    replaceFirstL (lbrace :: (k ++ [rbrace])) r (p ++ lbrace :: (h ++ rbrace :: s))
      = p ++ lbrace :: (h ++ rbrace :: s) := by
  rw [replaceFirstL_skip lbrace _ r p _ hp]
  congr 1
  simp only [replaceFirstL]
  have hpre : ((lbrace :: (k ++ [rbrace])).isPrefixOf
      (lbrace :: (h ++ rbrace :: s))) = false := by
    simp only [List.isPrefixOf, beq_self_eq_true, Bool.true_and]
    exact key_not_prefix k h s hkr hhr hne
  rw [hpre]
  simp only [Bool.false_eq_true, if_false]
  congr 1
  apply replaceFirstL_no_lbrace
  intro x hx
  rcases List.mem_append.mp hx with h1 | h1
  · exact hhl x h1
  · rcases List.mem_cons.mp h1 with h2 | h2
    · subst h2; decide
    · exact hsl x h2

theorem replaceFirst_this_L (p h s r : List Char) (hp : ∀ a ∈ p, a ≠ lbrace) :
    replaceFirstL (lbrace :: (h ++ [rbrace])) r (p ++ lbrace :: (h ++ rbrace :: s))
      = p ++ (r ++ s) := by
  rw [replaceFirstL_skip lbrace _ r p _ hp]
  congr 1
  have hsh : lbrace :: (h ++ rbrace :: s) = (lbrace :: (h ++ [rbrace])) ++ s := by simp
  rw [hsh, replaceFirstL_here]

/-- One fold step of `resolveSubject`. -/
theorem resolveSubject_cons (ps : PState) (template : String) (k : String)
    (rest : List String) (row : Obj) :
    resolveSubject ps template (k :: rest) row =
      resolveSubject ps
        (replaceFirst template (placeholder k)
          (encodeURIComponent (jsValueOrEmpty (getProp ps (JVal.obj row) k))))
        rest row := rfl

theorem resolveSubject_noLB (ps : PState) (headers : List String) (row : Obj) :
    ∀ t : String, (∀ a ∈ t.data, a ≠ lbrace) → resolveSubject ps t headers row = t := by
  induction headers with
  | nil => intro t _; rfl
  | cons k rest ih =>
    intro t ht
    rw [resolveSubject_cons]
    have hstep : replaceFirst t (placeholder k)
        (encodeURIComponent (jsValueOrEmpty (getProp ps (JVal.obj row) k))) = t := by
      apply str_ext
      simp only [replaceFirst, data_mk, placeholder]
      have hsh : lbrace :: k.data ++ [rbrace] = lbrace :: (k.data ++ [rbrace]) := by
        simp
      rw [hsh]
      exact replaceFirstL_no_lbrace _ _ t.data ht
    rw [hstep]
    exact ih t ht

theorem template_data (p h s : String) :
    (p ++ placeholder h ++ s).data = p.data ++ lbrace :: (h.data ++ rbrace :: s.data) := by
  simp [String.data_append, placeholder, data_mk]

theorem resolveSubject_shape (ps : PState) (row : Obj) (p h s : String)
    (hp : braceFree p) (hh : braceFree h) (hs : braceFree s) :
    ∀ headers : List String, (∀ k ∈ headers, braceFree k) →
      resolveSubject ps (p ++ placeholder h ++ s) headers row =
        if h ∈ headers then
          p ++ encodeURIComponent (jsValueOrEmpty (getProp ps (JVal.obj row) h)) ++ s
        else p ++ placeholder h ++ s := by
  intro headers
  induction headers with
  | nil => intro _; rw [if_neg (List.not_mem_nil h)]; rfl
  | cons k rest ih =>
    intro hks
    rw [resolveSubject_cons]
    have hpd : ∀ u : String, (placeholder u).data = lbrace :: (u.data ++ [rbrace]) := by
      intro u; simp [placeholder, data_mk]
    by_cases hk : k = h
    · subst hk
      have hstep : replaceFirst (p ++ placeholder k ++ s) (placeholder k)
          (encodeURIComponent (jsValueOrEmpty (getProp ps (JVal.obj row) k)))
          = p ++ encodeURIComponent (jsValueOrEmpty (getProp ps (JVal.obj row) k)) ++ s := by
        apply str_ext
        show replaceFirstL (placeholder k).data
            (encodeURIComponent (jsValueOrEmpty (getProp ps (JVal.obj row) k))).data
            ((p ++ placeholder k ++ s).data)
          = (p ++ encodeURIComponent (jsValueOrEmpty (getProp ps (JVal.obj row) k)) ++ s).data
        rw [template_data p k s, hpd k]
        rw [replaceFirst_this_L p.data k.data s.data _
          (fun a ha => (hp a ha).1)]
        simp [String.data_append, List.append_assoc]
      rw [hstep]
      rw [resolveSubject_noLB ps rest row _ ?_]
      · simp
      · intro a ha
        simp only [String.data_append] at ha
        rcases List.mem_append.mp ha with h1 | h1
        · rcases List.mem_append.mp h1 with h2 | h2
          · exact (hp a h2).1
          · exact (encode_braceFree _ a h2).1
        · exact (hs a h1).1
    · have hstep : replaceFirst (p ++ placeholder h ++ s) (placeholder k)
          (encodeURIComponent (jsValueOrEmpty (getProp ps (JVal.obj row) k)))
          = p ++ placeholder h ++ s := by
        apply str_ext
        show replaceFirstL (placeholder k).data
            (encodeURIComponent (jsValueOrEmpty (getProp ps (JVal.obj row) k))).data
            ((p ++ placeholder h ++ s).data)
          = (p ++ placeholder h ++ s).data
        rw [template_data p h s, hpd k]
        exact replaceFirst_other_L p.data h.data s.data k.data _
          (fun a ha => (hp a ha).1) (fun a ha => (hh a ha).1) (fun a ha => (hh a ha).2)
          (fun a ha => (hs a ha).1) (fun a ha => ((hks k (by simp)) a ha).2)
          (fun hcon => hk (str_ext hcon))
      rw [hstep]
      rw [ih (fun x hx => hks x (by simp [hx]))]
      by_cases hmem : h ∈ rest
      · rw [if_pos hmem, if_pos (List.mem_cons_of_mem k hmem)]
      · have hnot : ¬ h ∈ k :: rest := by
          intro hcon
          rcases List.mem_cons.mp hcon with h1 | h1
          · exact hk h1.symm
          · exact hmem h1
        rw [if_neg hmem, if_neg hnot]

theorem template_data2 (p h m s : String) :
    (p ++ placeholder h ++ m ++ placeholder h ++ s).data =
      p.data ++ lbrace ::
        (h.data ++ rbrace :: (m.data ++ lbrace :: (h.data ++ rbrace :: s.data))) := by
  simp [String.data_append, placeholder, data_mk]

/-- With a repeated placeholder, the single pass for its header replaces
only the first occurrence - JS `String.replace` with a string pattern. -/
theorem resolveSubject_double (ps : PState) (row : Obj) (p h m s : String)
    (hp : braceFree p) :
    resolveSubject ps (p ++ placeholder h ++ m ++ placeholder h ++ s) [h] row =
      p ++ encodeURIComponent (jsValueOrEmpty (getProp ps (JVal.obj row) h))
        ++ m ++ placeholder h ++ s := by
  rw [resolveSubject_cons]
  have hstep : replaceFirst (p ++ placeholder h ++ m ++ placeholder h ++ s)
      (placeholder h)
      (encodeURIComponent (jsValueOrEmpty (getProp ps (JVal.obj row) h)))
      = p ++ encodeURIComponent (jsValueOrEmpty (getProp ps (JVal.obj row) h))
        ++ m ++ placeholder h ++ s := by
    apply str_ext
    show replaceFirstL (placeholder h).data
        (encodeURIComponent (jsValueOrEmpty (getProp ps (JVal.obj row) h))).data
        ((p ++ placeholder h ++ m ++ placeholder h ++ s).data)
      = (p ++ encodeURIComponent (jsValueOrEmpty (getProp ps (JVal.obj row) h))
          ++ m ++ placeholder h ++ s).data
    rw [template_data2 p h m s]
    have hpd : (placeholder h).data = lbrace :: (h.data ++ [rbrace]) := by
      simp [placeholder, data_mk]
    rw [hpd]
    rw [replaceFirst_this_L p.data h.data
      (m.data ++ lbrace :: (h.data ++ rbrace :: s.data)) _
      (fun a ha => (hp a ha).1)]
    simp [String.data_append, placeholder, data_mk, List.append_assoc]
  rw [hstep]
  rfl

/-- Claim C1, counterexample: substitution is driven by the CSV headers
via JS `String.replace`, so (a) a placeholder naming no CSV header is
left verbatim in the output IRI instead of being replaced by the empty
string (headers `["id"]`, template `http://e/\x7bx\x7d`), and (b) with
header `id` and template `http://e/\x7bid\x7d/\x7bid\x7d` only the first
occurrence is substituted, not every occurrence as the claim states. -/
theorem subject_template_counterexample :
    resolveSubject [] ("http://e/" ++ placeholder "x") ["id"] [("id", JVal.str "1")]
      = "http://e/" ++ placeholder "x"
    ∧ ("http://e/" ++ placeholder "x" : String) ≠ "http://e/"
    ∧ resolveSubject [] ("http://e/" ++ placeholder "id" ++ "/" ++ placeholder "id")
        ["id"] [("id", JVal.str "1")]
      = "http://e/1/" ++ placeholder "id"
    ∧ ("http://e/1/" ++ placeholder "id" : String) ≠ "http://e/1/1" :=
  ⟨rfl, by decide, rfl, by decide⟩

/-- Claim C1, amended: subject resolution is total (a total Lean
function: it never throws), and substitution is driven by the CSV
headers, not by the placeholders.  For a template `p\x7bh\x7ds` whose
pieces and headers are brace-free: if `h` is one of the headers, the
placeholder is replaced by the percent-encoded JS read `row[h] || ''`
(empty when the field is absent or empty); if `h` names no header, the
placeholder remains verbatim in the output IRI.  Replacement is JS
`String.replace` with a string pattern: in a template containing the
same placeholder twice, that header's pass replaces only the first
occurrence and the second survives. -/
theorem subject_template_amended (ps : PState) (row : Obj) (p h s : String)
    (headers : List String) (hp : braceFree p) (hh : braceFree h)
    (hs : braceFree s) (hks : ∀ k ∈ headers, braceFree k) :
    (resolveSubject ps (p ++ placeholder h ++ s) headers row =
      if h ∈ headers then
        p ++ encodeURIComponent (jsValueOrEmpty (getProp ps (JVal.obj row) h)) ++ s
      else p ++ placeholder h ++ s)
    ∧ ∀ m : String,
        resolveSubject ps (p ++ placeholder h ++ m ++ placeholder h ++ s) [h] row =
          p ++ encodeURIComponent (jsValueOrEmpty (getProp ps (JVal.obj row) h))
            ++ m ++ placeholder h ++ s :=
  ⟨resolveSubject_shape ps row p h s hp hh hs headers hks,
   fun m => resolveSubject_double ps row p h m s hp⟩

theorem subject_template_amended_witness :
    resolveSubject [] ("http://e/" ++ placeholder "id" ++ "") ["id"]
        [("id", JVal.str "A 1")] = "http://e/A%201" :=
  ((subject_template_amended [] [("id", JVal.str "A 1")] "http://e/" "id" "" ["id"]
    (by decide) (by decide) (by decide) (by decide)).1).trans (by decide)

/-! ## Lemmas for the row-view invariant (C4) -/

theorem splitOnChar_ne_nil (c : Char) (l : List Char) : splitOnChar c l ≠ [] := by
  cases l with
  | nil => simp [splitOnChar]
  | cons a rest =>
    simp only [splitOnChar]
    cases h : splitOnChar c rest with
    | nil => simp
    | cons g gs => by_cases hac : a = c <;> simp [hac]

theorem splitOnChar_cons (c a : Char) (rest g : List Char) (gs : List (List Char))
    (h : splitOnChar c rest = g :: gs) :
    splitOnChar c (a :: rest) = if a = c then [] :: g :: gs else (a :: g) :: gs := by
  simp only [splitOnChar, h]

theorem joinOnChar_cons_cons (c a : Char) (g : List Char) (gs : List (List Char)) :
    joinOnChar c ((a :: g) :: gs) = a :: joinOnChar c (g :: gs) := by
  cases gs with
  | nil => rfl
  | cons g2 gs2 => simp [joinOnChar]

theorem joinOnChar_splitOnChar (c : Char) (l : List Char) :
    joinOnChar c (splitOnChar c l) = l := by
  induction l with
  | nil => rfl
  | cons a rest ih =>
    cases h : splitOnChar c rest with
    | nil => exact absurd h (splitOnChar_ne_nil c rest)
    | cons g gs =>
      rw [h] at ih
      rw [splitOnChar_cons c a rest g gs h]
      by_cases hac : a = c
      · subst hac
        rw [if_pos rfl]
        simp only [joinOnChar, List.nil_append]
        rw [ih]
      · rw [if_neg hac, joinOnChar_cons_cons, ih]

theorem splitOnChar_injective (c : Char) {l l' : List Char}
    (h : splitOnChar c l = splitOnChar c l') : l = l' := by
  rw [← joinOnChar_splitOnChar c l, ← joinOnChar_splitOnChar c l', h]

theorem jsSplit_injective {s t : String} (h : jsSplit s = jsSplit t) : s = t := by
  apply str_ext
  apply splitOnChar_injective '.'
  have h2 := congrArg (List.map String.data) h
  simp only [jsSplit, List.map_map] at h2
  have h3 : ∀ gl : List (List Char), gl.map (String.data ∘ String.mk) = gl := by
    intro gl
    induction gl with
    | nil => rfl
    | cons g gs ih => simp only [List.map_cons, ih]; rfl
  rw [h3, h3] at h2
  exact h2

theorem includesCharL_iff_mem (c : Char) (l : List Char) :
    includesCharL c l = true ↔ c ∈ l := by
  induction l with
  | nil => simp [includesCharL]
  | cons a rest ih =>
    simp only [includesCharL, Bool.or_eq_true, beq_iff_eq, ih, List.mem_cons]
    constructor
    · rintro (h | h)
      · exact Or.inl h.symm
      · exact Or.inr h
    · rintro (h | h)
      · exact Or.inl h.symm
      · exact Or.inr h

theorem splitOnChar_length_ge_two (c : Char) (l : List Char) (h : c ∈ l) :
    2 ≤ (splitOnChar c l).length := by
  induction l with
  | nil => cases h
  | cons a rest ih =>
    cases hs : splitOnChar c rest with
    | nil => exact absurd hs (splitOnChar_ne_nil c rest)
    | cons g gs =>
      rw [splitOnChar_cons c a rest g gs hs]
      by_cases hac : a = c
      · rw [if_pos hac]
        simp only [List.length_cons]
        omega
      · rw [if_neg hac]
        rcases List.mem_cons.mp h with h1 | h1
        · exact absurd h1.symm hac
        · have h2 := ih h1
          rw [hs] at h2
          simpa using h2

theorem splitOnChar_not_mem (c : Char) :
    ∀ l : List Char, includesCharL c l = false → splitOnChar c l = [l] := by
  intro l
  induction l with
  | nil => intro _; rfl
  | cons a rest ih =>
    intro h
    simp only [includesCharL, Bool.or_eq_false_iff] at h
    obtain ⟨h1, h2⟩ := h
    have ha : ¬ a = c := by simpa using h1
    simp only [splitOnChar, ih h2, if_neg ha]

theorem jsSplit_no_dot (k : String) (h : includesCharL '.' k.data = false) :
    jsSplit k = [k] := by
  simp only [jsSplit, splitOnChar_not_mem '.' k.data h, List.map_cons, List.map_nil]

theorem strictWalk_nil_obj (Q : List String) (w : String) :
    strictWalk (JVal.obj []) Q ≠ some (JVal.str w) := by
  cases Q with
  | nil => simp [strictWalk]
  | cons q Q' => simp [strictWalk, objGet]

/-- A data walk on a primitive string succeeds only with no segments left. -/
theorem strictWalk_str (s : String) (Q : List String) (u : JVal)
    (h : strictWalk (JVal.str s) Q = some u) : Q = [] ∧ u = JVal.str s := by
  cases Q with
  | nil =>
    simp only [strictWalk, Option.some.injEq] at h
    exact ⟨rfl, h.symm⟩
  | cons q Q' => simp [strictWalk] at h

/-- A top-level write either routes the data walk into the written value
or leaves it reading the original object. -/
theorem strictWalk_objSet_any (o : Obj) (k : String) (v2 : JVal) (P : List String)
    (w : String)
    (hw : strictWalk (JVal.obj (objSet o k v2)) P = some (JVal.str w)) :
    (∃ Q, P = k :: Q ∧ strictWalk v2 Q = some (JVal.str w))
    ∨ strictWalk (JVal.obj o) P = some (JVal.str w) := by
  cases P with
  | nil => simp [strictWalk] at hw
  | cons q Q =>
    by_cases hkq : k = q
    · subst hkq
      have hg : objGet (objSet o k v2) k = some v2 := by
        rw [objGet_objSet, if_pos rfl]
      simp only [strictWalk, hg] at hw
      exact Or.inl ⟨Q, rfl, hw⟩
    · have hg : objGet (objSet o k v2) q = objGet o q := by
        rw [objGet_objSet, if_neg hkq]
      right
      simp only [strictWalk, hg] at hw
      simp only [strictWalk]
      exact hw

theorem flatCopy_not_mem (record : List (String × String)) :
    ∀ (o : Obj) (q : String), (∀ kv ∈ record, kv.1 ≠ q) →
      objGet (flatCopy record o) q = objGet o q := by
  induction record with
  | nil => intro o q _; rfl
  | cons kv rest ih =>
    intro o q hq
    obtain ⟨k, v⟩ := kv
    simp only [flatCopy]
    rw [ih _ q (fun x hx => hq x (by simp [hx]))]
    rw [objGet_objSet]
    exact if_neg (hq (k, v) (by simp))

theorem flatCopy_mem_nodup (record : List (String × String)) :
    ∀ (o : Obj) (k v : String), (record.map Prod.fst).Nodup → (k, v) ∈ record →
      objGet (flatCopy record o) k = some (JVal.str v) := by
  induction record with
  | nil => intro o k v _ hmem; cases hmem
  | cons kv rest ih =>
    intro o k v hnd hmem
    obtain ⟨k0, v0⟩ := kv
    simp only [List.map_cons, List.nodup_cons] at hnd
    obtain ⟨hk0, hnd'⟩ := hnd
    rcases List.mem_cons.mp hmem with h1 | h1
    · injection h1 with e1 e2
      subst e1; subst e2
      simp only [flatCopy]
      rw [flatCopy_not_mem rest _ k ?_]
      · rw [objGet_objSet, if_pos rfl]
      · intro x hx hcon
        exact hk0 (by rw [← hcon]; exact List.mem_map_of_mem Prod.fst hx)
    · simp only [flatCopy]
      exact ih _ k v hnd' h1

theorem flatCopy_mem_is_str (record : List (String × String)) :
    ∀ (o : Obj) (q : String), (∃ kv ∈ record, kv.1 = q) →
      ∃ s, objGet (flatCopy record o) q = some (JVal.str s) := by
  induction record with
  | nil =>
    intro o q hex
    obtain ⟨kv, hmem, _⟩ := hex
    cases hmem
  | cons kv0 rest ih =>
    intro o q hex
    by_cases hq : ∃ kv ∈ rest, kv.1 = q
    · simp only [flatCopy]
      exact ih _ q hq
    · obtain ⟨kv, hmem, hk⟩ := hex
      rcases List.mem_cons.mp hmem with h1 | h1
      · subst h1
        simp only [flatCopy]
        rw [flatCopy_not_mem rest _ q (fun x hx hcon => hq ⟨x, hx, hcon⟩)]
        rw [objGet_objSet, if_pos hk]
        exact ⟨kv.2, rfl⟩
      · exact absurd ⟨kv, h1, hk⟩ hq

/-- A multi-segment data walk that returns a string passes the flat copy
untouched: its first segment cannot be one of the copied keys. -/
theorem strictWalk_flatCopy (record : List (String × String)) (o : Obj)
    (q : String) (Q : List String) (hQ : Q ≠ []) (w : String)
    (hw : strictWalk (JVal.obj (flatCopy record o)) (q :: Q) = some (JVal.str w)) :
    strictWalk (JVal.obj o) (q :: Q) = some (JVal.str w) := by
  by_cases hq : ∃ kv ∈ record, kv.1 = q
  · obtain ⟨s, hs⟩ := flatCopy_mem_is_str record o q hq
    simp only [strictWalk, hs] at hw
    cases Q with
    | nil => exact absurd rfl hQ
    | cons q2 Q2 => simp [strictWalk] at hw
  · have hnone : ∀ kv ∈ record, kv.1 ≠ q := fun kv hkv hcon => hq ⟨kv, hkv, hcon⟩
    simp only [strictWalk] at hw ⊢
    rw [flatCopy_not_mem record o q hnone] at hw
    exact hw

/-- Inserting along a dotted path either creates the value at exactly that
path in the data view, or leaves the data view's string reads unchanged
(writes routed through primitives or shared functions do not touch the
plain-object data view). -/
theorem strictWalk_insertInto (parts : List String) :
    ∀ (ps : PState) (o : Obj) (v' : JVal) (ps' : PState) (value : String),
      insertInto ps (JVal.obj o) parts value = some (v', ps') →
      ∀ (P : List String) (w : String),
        strictWalk v' P = some (JVal.str w) →
        (P = parts ∧ w = value) ∨ strictWalk (JVal.obj o) P = some (JVal.str w) := by
  induction parts with
  | nil =>
    intro ps o v' ps' value hins P w hw
    simp only [insertInto, Option.some.injEq, Prod.mk.injEq] at hins
    obtain ⟨h1, h2⟩ := hins
    subst h1
    exact Or.inr hw
  | cons p rest ih =>
    intro ps o v' ps' value hins P w hw
    cases rest with
    | nil =>
      simp only [insertInto, Option.some.injEq, Prod.mk.injEq] at hins
      obtain ⟨h1, h2⟩ := hins
      subst h1
      rcases strictWalk_objSet_any o p (JVal.str value) P w hw with ⟨Q, hP, hQ⟩ | hro
      · obtain ⟨hQnil, hu⟩ := strictWalk_str value Q _ hQ
        injection hu with he
        exact Or.inl ⟨by rw [hP, hQnil], he⟩
      · exact Or.inr hro
    | cons r rs =>
      cases hg : objGet o p with
      | some v =>
        by_cases htv : truthyV v = true
        · cases v with
          | obj co =>
            cases hrec : insertInto ps (JVal.obj co) (r :: rs) value with
            | none => simp [insertInto, hg, htv, hrec] at hins
            | some vp =>
              obtain ⟨v2, ps2⟩ := vp
              simp [insertInto, hg, htv, hrec] at hins
              obtain ⟨h1, h2⟩ := hins
              subst h1
              rcases strictWalk_objSet_any o p v2 P w hw with ⟨Q, hP, hQ⟩ | hro
              · rcases ih ps co v2 ps2 value hrec Q w hQ with ⟨hQr, hwv⟩ | hco
                · exact Or.inl ⟨by rw [hP, hQr], hwv⟩
                · right
                  rw [hP]
                  simp only [strictWalk, hg]
                  exact hco
              · exact Or.inr hro
          | str sv =>
            cases hrec : insertInto ps (JVal.str sv) (r :: rs) value with
            | none => simp [insertInto, hg, htv, hrec] at hins
            | some vp =>
              obtain ⟨u2, ps2⟩ := vp
              simp [insertInto, hg, htv, hrec] at hins
              obtain ⟨h1, h2⟩ := hins
              subst h1
              exact Or.inr hw
          | num nv =>
            cases hrec : insertInto ps (JVal.num nv) (r :: rs) value with
            | none => simp [insertInto, hg, htv, hrec] at hins
            | some vp =>
              obtain ⟨u2, ps2⟩ := vp
              simp [insertInto, hg, htv, hrec] at hins
              obtain ⟨h1, h2⟩ := hins
              subst h1
              exact Or.inr hw
          | func pr nm =>
            cases hrec : insertInto ps (JVal.func pr nm) (r :: rs) value with
            | none => simp [insertInto, hg, htv, hrec] at hins
            | some vp =>
              obtain ⟨u2, ps2⟩ := vp
              simp [insertInto, hg, htv, hrec] at hins
              obtain ⟨h1, h2⟩ := hins
              subst h1
              exact Or.inr hw
        · have htv2 : truthyV v = false := by simpa using htv
          cases hrec : insertInto ps (JVal.obj []) (r :: rs) value with
          | none => simp [insertInto, hg, htv2, hrec] at hins
          | some vp =>
            obtain ⟨v2, ps2⟩ := vp
            simp [insertInto, hg, htv2, hrec] at hins
            obtain ⟨h1, h2⟩ := hins
            subst h1
            rcases strictWalk_objSet_any o p v2 P w hw with ⟨Q, hP, hQ⟩ | hro
            · rcases ih ps [] v2 ps2 value hrec Q w hQ with ⟨hQr, hwv⟩ | hco
              · exact Or.inl ⟨by rw [hP, hQr], hwv⟩
              · exact absurd hco (strictWalk_nil_obj Q w)
            · exact Or.inr hro
      | none =>
        cases hpr : objProtoProp p with
        | some f =>
          cases hrec : insertInto ps f (r :: rs) value with
          | none => simp [insertInto, hg, hpr, hrec] at hins
          | some vp =>
            obtain ⟨u2, ps2⟩ := vp
            simp [insertInto, hg, hpr, hrec] at hins
            obtain ⟨h1, h2⟩ := hins
            subst h1
            exact Or.inr hw
        | none =>
          cases hrec : insertInto ps (JVal.obj []) (r :: rs) value with
          | none => simp [insertInto, hg, hpr, hrec] at hins
          | some vp =>
            obtain ⟨v2, ps2⟩ := vp
            simp [insertInto, hg, hpr, hrec] at hins
            obtain ⟨h1, h2⟩ := hins
            subst h1
            rcases strictWalk_objSet_any o p v2 P w hw with ⟨Q, hP, hQ⟩ | hro
            · rcases ih ps [] v2 ps2 value hrec Q w hQ with ⟨hQr, hwv⟩ | hco
              · exact Or.inl ⟨by rw [hP, hQr], hwv⟩
              · exact absurd hco (strictWalk_nil_obj Q w)
            · exact Or.inr hro

theorem strictWalk_insertNested (parts : List String) (ps : PState) (o o' : Obj)
    (ps' : PState) (value : String)
    (hins : insertNested ps o parts value = some (o', ps'))
    (P : List String) (w : String)
    (hw : strictWalk (JVal.obj o') P = some (JVal.str w)) :
    (P = parts ∧ w = value) ∨ strictWalk (JVal.obj o) P = some (JVal.str w) := by
  unfold insertNested at hins
  cases hrec : insertInto ps (JVal.obj o) parts value with
  | none => rw [hrec] at hins; simp at hins
  | some vp =>
    obtain ⟨v2, ps2⟩ := vp
    rw [hrec] at hins
    cases v2 with
    | obj o2 =>
      simp only [Option.some.injEq, Prod.mk.injEq] at hins
      obtain ⟨h1, h2⟩ := hins
      subst h1
      subst h2
      exact strictWalk_insertInto parts ps o _ _ value hrec P w hw
    | str s => simp at hins
    | num n => simp at hins
    | func a b => simp at hins

/-- String leaves of the nested pass all come from some record entry,
placed at the split of its key. -/
theorem buildNested_strs (record : List (String × String)) :
    ∀ (o : Obj) (ps : PState) (o' : Obj) (ps' : PState),
      buildNested record o ps = some (o', ps') →
      ∀ (P : List String) (w : String),
        strictWalk (JVal.obj o') P = some (JVal.str w) →
        (∃ kv, kv ∈ record ∧ jsSplit kv.1 = P ∧ w = kv.2)
        ∨ strictWalk (JVal.obj o) P = some (JVal.str w) := by
  induction record with
  | nil =>
    intro o ps o' ps' h P w hw
    simp only [buildNested, Option.some.injEq, Prod.mk.injEq] at h
    obtain ⟨h1, h2⟩ := h
    subst h1
    exact Or.inr hw
  | cons kv rest ih =>
    intro o ps o' ps' h P w hw
    obtain ⟨k, v⟩ := kv
    by_cases hdot : includesCharL '.' k.data = true
    · cases hstep : insertNested ps o (jsSplit k) v with
      | none => simp [buildNested, hdot, hstep] at h
      | some op2 =>
        obtain ⟨o2, ps2⟩ := op2
        simp only [buildNested, hdot, if_true, hstep] at h
        rcases ih o2 ps2 o' ps' h P w hw with ⟨kv', hmem, hsp, hv⟩ | hwalk1
        · exact Or.inl ⟨kv', by simp [hmem], hsp, hv⟩
        · rcases strictWalk_insertNested (jsSplit k) ps o o2 ps2 v hstep P w hwalk1 with
            ⟨hP, hv⟩ | hwo
          · exact Or.inl ⟨(k, v), by simp, by rw [hP], hv⟩
          · exact Or.inr hwo
    · have hdot2 : includesCharL '.' k.data = false := by simpa using hdot
      simp only [buildNested, hdot2, Bool.false_eq_true, if_false] at h
      rcases ih (objSet o k (JVal.str v)) ps o' ps' h P w hw with ⟨kv', hmem, hsp, hv⟩ | hwalk1
      · exact Or.inl ⟨kv', by simp [hmem], hsp, hv⟩
      · rcases strictWalk_objSet_any o k (JVal.str v) P w hwalk1 with ⟨Q, hP, hQ⟩ | hwo
        · obtain ⟨hQnil, hu⟩ := strictWalk_str v Q _ hQ
          injection hu with he
          exact Or.inl ⟨(k, v), by simp, by rw [jsSplit_no_dot k hdot2, hP, hQnil], he⟩
        · exact Or.inr hwo

/-- Claim C4, counterexample: the invariant is false of the program: a
dotted header whose middle segment names a built-in string method makes
the nested pass write through the shared method object. The write from a later row (value "v2") is then seen
by the earlier row's truthy walk, while that row's flat property still holds
its own value "v1". -/
theorem row_view_counterexample :
    parseCSV "a,a.charAt.x\nfoo,v1\nbar,v2" =
      Except.ok ⟨["a", "a.charAt.x"],
        [[("a", JVal.str "foo"), ("a.charAt.x", JVal.str "v1")],
         [("a", JVal.str "bar"), ("a.charAt.x", JVal.str "v2")]],
        [(("String.prototype", "charAt", "x"), JVal.str "v2")]⟩
    ∧ truthyWalk [(("String.prototype", "charAt", "x"), JVal.str "v2")]
        (JVal.obj [("a", JVal.str "foo"), ("a.charAt.x", JVal.str "v1")])
        (jsSplit "a.charAt.x") = some (JVal.str "v2")
    ∧ objGet [("a", JVal.str "foo"), ("a.charAt.x", JVal.str "v1")] "a.charAt.x"
        = some (JVal.str "v1")
    ∧ ("v2" : String) ≠ "v1" :=
  ⟨rfl, rfl, rfl, by decide⟩

/-- Claim C4, amended: for a record with pairwise-distinct keys accepted by the
row builder, whenever the *data view* walk (descending only through own
properties of plain nested objects, ignoring boxed primitives and shared
function objects) along a dotted header's segments yields a string, that
string equals the flat property stored under the full dotted header. The
program's actual walk can differ: it also descends through truthy boxed
properties and prototype-polluted function members (see the counterexample),
and a record is rejected (strict-mode TypeError) only when a write lands on
a primitive. -/
theorem row_view_invariant (ps : PState) (record : List (String × String))
    (row : Obj) (ps' : PState) (h v : String)
    (hnd : (record.map Prod.fst).Nodup)
    (hrow : buildRow ps record = some (row, ps'))
    (hdot : includesCharL '.' h.data = true)
    (hwalk : strictWalk (JVal.obj row) (jsSplit h) = some (JVal.str v)) :
    objGet row h = some (JVal.str v) := by
  simp only [buildRow] at hrow
  rcases Option.map_eq_some'.mp hrow with ⟨op, hnest, hflat⟩
  obtain ⟨o, ps2⟩ := op
  simp only [Prod.mk.injEq] at hflat
  obtain ⟨hflat1, hflat2⟩ := hflat
  subst hflat1
  have hlen : 2 ≤ (splitOnChar '.' h.data).length :=
    splitOnChar_length_ge_two '.' h.data ((includesCharL_iff_mem '.' h.data).mp hdot)
  obtain ⟨g1, gs, hg⟩ : ∃ g1 gs, splitOnChar '.' h.data = g1 :: gs := by
    cases hsp : splitOnChar '.' h.data with
    | nil => exact absurd hsp (splitOnChar_ne_nil '.' h.data)
    | cons g1 gs => exact ⟨g1, gs, rfl⟩
  have hjs : jsSplit h = String.mk g1 :: gs.map String.mk := by
    simp [jsSplit, hg]
  have hQne : gs.map String.mk ≠ [] := by
    intro hcon
    have : gs = [] := by simpa using congrArg List.length hcon
    rw [hg, this] at hlen
    simp at hlen
  rw [hjs] at hwalk
  have hwn := strictWalk_flatCopy record o (String.mk g1) (gs.map String.mk) hQne v hwalk
  rcases buildNested_strs record [] ps o ps2 hnest (String.mk g1 :: gs.map String.mk) v hwn with
    ⟨kv, hmem, hsplit, hv⟩ | hbad
  · have hkh : kv.1 = h := by
      apply jsSplit_injective
      rw [hsplit, hjs]
    subst hv
    have hfin := flatCopy_mem_nodup record o kv.1 kv.2 hnd hmem
    rw [hkh] at hfin
    exact hfin
  · exact absurd hbad (strictWalk_nil_obj _ v)

theorem row_view_invariant_witness :
    objGet [("a", JVal.obj [("b", JVal.str "x")]), ("a.b", JVal.str "x")] "a.b"
      = some (JVal.str "x") :=
  row_view_invariant [] [("a.b", "x")]
    [("a", JVal.obj [("b", JVal.str "x")]), ("a.b", JVal.str "x")] [] "a.b" "x"
    (by decide) rfl (by decide) rfl

/-! ## Lemmas for the triple-generation pipeline (C3, C5, C6, C7, C8, C9) -/

theorem processPOMap_length_one (qs : List Quad) (ps : PState) (row : Obj)
    (s po : String)
    (h : wellFormedPO qs po) : (processPOMap qs ps row s po).length = 1 := by
  obtain ⟨pmq, pcq, omq, rq, h1, h2, h3, h4⟩ := h
  simp [processPOMap, h1, h2, h3, h4]

theorem foldl_append_eq_flatMap {α β : Type} (f : α → List β) :
    ∀ (l : List α) (acc : List β),
      l.foldl (fun a x => a ++ f x) acc = acc ++ l.flatMap f := by
  intro l
  induction l with
  | nil => intro acc; simp
  | cons x xs ih =>
    intro acc
    simp only [List.foldl_cons, List.flatMap_cons, ih, List.append_assoc]

theorem processRow_eq_flatMap (qs : List Quad) (ps : PState)
    (headers : List String) (poMaps : List Quad) (template : String) (row : Obj) :
    processRow qs ps headers poMaps template row =
      poMaps.flatMap (fun pq =>
        processPOMap qs ps row (resolveSubject ps template headers row) pq.obj) := by
  simp [processRow, foldl_append_eq_flatMap]

theorem processTriplesMap_eq (qs : List Quad) (inputFiles : String → Option String)
    (tm sf content : String) (csvData : CSVData) (smq tq : Quad)
    (hls : logicalSourceOf qs tm = some sf) (hsf : sf ≠ "")
    (hin : inputFiles sf = some content) (hc : content ≠ "")
    (hparse : parseCSV content = Except.ok csvData)
    (hsm : (getQuads qs tm rrSubjectMapIRI).head? = some smq)
    (htq : (getQuads qs smq.obj rrTemplateIRI).head? = some tq) :
    processTriplesMap qs inputFiles tm =
      Except.ok (csvData.rows.flatMap (fun row =>
        (getQuads qs tm rrPredicateObjectMapIRI).flatMap (fun pq =>
          processPOMap qs csvData.pollution row
            (resolveSubject csvData.pollution tq.obj csvData.headers row)
            pq.obj))) := by
  simp only [processTriplesMap, hls, if_neg hsf, hin, if_neg hc, hparse, hsm, htq]
  congr 1
  rw [foldl_append_eq_flatMap]
  simp only [List.nil_append]
  have hfun : (fun row => processRow qs csvData.pollution csvData.headers
      (getQuads qs tm rrPredicateObjectMapIRI) tq.obj row)
      = (fun row => (getQuads qs tm rrPredicateObjectMapIRI).flatMap (fun pq =>
          processPOMap qs csvData.pollution row
            (resolveSubject csvData.pollution tq.obj csvData.headers row)
            pq.obj)) := by
    funext row
    exact processRow_eq_flatMap qs csvData.pollution csvData.headers _ tq.obj row
  exact congrArg _ hfun

theorem length_flatMap_const {α β : Type} (f : α → List β) (n : Nat) :
    ∀ l : List α, (∀ x ∈ l, (f x).length = n) →
      (l.flatMap f).length = l.length * n := by
  intro l
  induction l with
  | nil => intro _; simp
  | cons x xs ih =>
    intro h
    simp only [List.flatMap_cons, List.length_append, List.length_cons]
    rw [h x (by simp), ih (fun y hy => h y (by simp [hy]))]
    ring

/-- Claim C5: Triple-count relation: a triples-map with a bound parsing
source of `R` rows, a subject template, and `P` predicate-object maps
that all carry a predicate constant and an object reference emits
exactly `R * P` triples, with no deduplication of duplicates. -/
theorem triple_count (qs : List Quad) (inputFiles : String → Option String)
    (tm sf content : String) (csvData : CSVData) (smq tq : Quad)
    (hls : logicalSourceOf qs tm = some sf) (hsf : sf ≠ "")
    (hin : inputFiles sf = some content) (hc : content ≠ "")
    (hparse : parseCSV content = Except.ok csvData)
    (hsm : (getQuads qs tm rrSubjectMapIRI).head? = some smq)
    (htq : (getQuads qs smq.obj rrTemplateIRI).head? = some tq)
    (hwf : ∀ pq ∈ getQuads qs tm rrPredicateObjectMapIRI, wellFormedPO qs pq.obj) :
    ∃ ts, processTriplesMap qs inputFiles tm = Except.ok ts ∧
      ts.length = csvData.rows.length *
        (getQuads qs tm rrPredicateObjectMapIRI).length := by
  refine ⟨_, processTriplesMap_eq qs inputFiles tm sf content csvData smq tq
    hls hsf hin hc hparse hsm htq, ?_⟩
  have hrow : ∀ row ∈ csvData.rows,
      ((getQuads qs tm rrPredicateObjectMapIRI).flatMap (fun pq =>
        processPOMap qs csvData.pollution row
          (resolveSubject csvData.pollution tq.obj csvData.headers row)
          pq.obj)).length
      = (getQuads qs tm rrPredicateObjectMapIRI).length := by
    intro row _
    rw [length_flatMap_const _ 1 _
      (fun pq hpq => processPOMap_length_one qs csvData.pollution row _ pq.obj
        (hwf pq hpq))]
    exact Nat.mul_one _
  exact length_flatMap_const _ _ csvData.rows hrow

theorem triple_count_witness :
    ∃ ts, processTriplesMap
      [⟨"tm1", rdfTypeIRI, rrTriplesMapIRI⟩,
       ⟨"tm1", rmlLogicalSourceIRI, "ls1"⟩,
       ⟨"ls1", rmlSourceIRI, "f.csv"⟩,
       ⟨"tm1", rrSubjectMapIRI, "sm1"⟩,
       ⟨"sm1", rrTemplateIRI, "http://e/" ++ placeholder "id"⟩,
       ⟨"tm1", rrPredicateObjectMapIRI, "po1"⟩,
       ⟨"po1", rrPredicateMapIRI, "pm1"⟩,
       ⟨"pm1", rrConstantIRI, "http://s/p1"⟩,
       ⟨"po1", rrObjectMapIRI, "om1"⟩,
       ⟨"om1", rmlReferenceIRI, "id"⟩,
       ⟨"tm1", rrPredicateObjectMapIRI, "po2"⟩,
       ⟨"po2", rrPredicateMapIRI, "pm2"⟩,
       ⟨"pm2", rrConstantIRI, "http://s/p2"⟩,
       ⟨"po2", rrObjectMapIRI, "om2"⟩,
       ⟨"om2", rmlReferenceIRI, "name"⟩]
      (fun k => if k = "f.csv" then some "id,name\n1,a\n2,b" else none)
      "tm1" = Except.ok ts ∧ ts.length = 2 * 2 := by
  have hwf : ∀ pq ∈ getQuads
      [(⟨"tm1", rdfTypeIRI, rrTriplesMapIRI⟩ : Quad),
       ⟨"tm1", rmlLogicalSourceIRI, "ls1"⟩,
       ⟨"ls1", rmlSourceIRI, "f.csv"⟩,
       ⟨"tm1", rrSubjectMapIRI, "sm1"⟩,
       ⟨"sm1", rrTemplateIRI, "http://e/" ++ placeholder "id"⟩,
       ⟨"tm1", rrPredicateObjectMapIRI, "po1"⟩,
       ⟨"po1", rrPredicateMapIRI, "pm1"⟩,
       ⟨"pm1", rrConstantIRI, "http://s/p1"⟩,
       ⟨"po1", rrObjectMapIRI, "om1"⟩,
       ⟨"om1", rmlReferenceIRI, "id"⟩,
       ⟨"tm1", rrPredicateObjectMapIRI, "po2"⟩,
       ⟨"po2", rrPredicateMapIRI, "pm2"⟩,
       ⟨"pm2", rrConstantIRI, "http://s/p2"⟩,
       ⟨"po2", rrObjectMapIRI, "om2"⟩,
       ⟨"om2", rmlReferenceIRI, "name"⟩] "tm1" rrPredicateObjectMapIRI,
      wellFormedPO
        [(⟨"tm1", rdfTypeIRI, rrTriplesMapIRI⟩ : Quad),
         ⟨"tm1", rmlLogicalSourceIRI, "ls1"⟩,
         ⟨"ls1", rmlSourceIRI, "f.csv"⟩,
         ⟨"tm1", rrSubjectMapIRI, "sm1"⟩,
         ⟨"sm1", rrTemplateIRI, "http://e/" ++ placeholder "id"⟩,
         ⟨"tm1", rrPredicateObjectMapIRI, "po1"⟩,
         ⟨"po1", rrPredicateMapIRI, "pm1"⟩,
         ⟨"pm1", rrConstantIRI, "http://s/p1"⟩,
         ⟨"po1", rrObjectMapIRI, "om1"⟩,
         ⟨"om1", rmlReferenceIRI, "id"⟩,
         ⟨"tm1", rrPredicateObjectMapIRI, "po2"⟩,
         ⟨"po2", rrPredicateMapIRI, "pm2"⟩,
         ⟨"pm2", rrConstantIRI, "http://s/p2"⟩,
         ⟨"po2", rrObjectMapIRI, "om2"⟩,
         ⟨"om2", rmlReferenceIRI, "name"⟩] pq.obj := by
    intro pq hpq
    have hpq2 : pq ∈ [(⟨"tm1", rrPredicateObjectMapIRI, "po1"⟩ : Quad),
        ⟨"tm1", rrPredicateObjectMapIRI, "po2"⟩] := hpq
    rcases List.mem_cons.mp hpq2 with h1 | h1
    · subst h1
      exact ⟨_, _, _, _, rfl, rfl, rfl, rfl⟩
    · rcases List.mem_singleton.mp h1 with rfl
      exact ⟨_, _, _, _, rfl, rfl, rfl, rfl⟩
  obtain ⟨ts, h1, h2⟩ := triple_count
    [⟨"tm1", rdfTypeIRI, rrTriplesMapIRI⟩,
     ⟨"tm1", rmlLogicalSourceIRI, "ls1"⟩,
     ⟨"ls1", rmlSourceIRI, "f.csv"⟩,
     ⟨"tm1", rrSubjectMapIRI, "sm1"⟩,
     ⟨"sm1", rrTemplateIRI, "http://e/" ++ placeholder "id"⟩,
     ⟨"tm1", rrPredicateObjectMapIRI, "po1"⟩,
     ⟨"po1", rrPredicateMapIRI, "pm1"⟩,
     ⟨"pm1", rrConstantIRI, "http://s/p1"⟩,
     ⟨"po1", rrObjectMapIRI, "om1"⟩,
     ⟨"om1", rmlReferenceIRI, "id"⟩,
     ⟨"tm1", rrPredicateObjectMapIRI, "po2"⟩,
     ⟨"po2", rrPredicateMapIRI, "pm2"⟩,
     ⟨"pm2", rrConstantIRI, "http://s/p2"⟩,
     ⟨"po2", rrObjectMapIRI, "om2"⟩,
     ⟨"om2", rmlReferenceIRI, "name"⟩]
    (fun k => if k = "f.csv" then some "id,name\n1,a\n2,b" else none)
    "tm1" "f.csv" "id,name\n1,a\n2,b"
    ⟨["id", "name"],
     [[("id", JVal.str "1"), ("name", JVal.str "a")],
      [("id", JVal.str "2"), ("name", JVal.str "b")]], []⟩
    ⟨"tm1", rrSubjectMapIRI, "sm1"⟩
    ⟨"sm1", rrTemplateIRI, "http://e/" ++ placeholder "id"⟩
    rfl (by decide) rfl (by decide) rfl rfl rfl hwf
  exact ⟨ts, h1, by rw [h2]; rfl⟩

theorem processTriplesMap_unbound (qs : List Quad)
    (inputFiles : String → Option String) (tm sf : String)
    (hls : logicalSourceOf qs tm = some sf) (hin : inputFiles sf = none) :
    processTriplesMap qs inputFiles tm = Except.ok [] := by
  simp only [processTriplesMap, hls, hin]
  by_cases hsf : sf = "" <;> simp [hsf]

/-- Claim C6: Missing-source tolerance: with two triples-maps of which
exactly one references a source key absent from the supplied source
table, no exception is raised, the unbound triples-map contributes zero
triples, and all triples of the other triples-map are still produced. -/
theorem missing_source_tolerance (qs : List Quad)
    (inputFiles : String → Option String) (tmGood tmBad sfBad : String)
    (lGood : List OutTriple)
    (horder : extractTriplesMaps qs = [tmGood, tmBad] ∨
              extractTriplesMaps qs = [tmBad, tmGood])
    (hls : logicalSourceOf qs tmBad = some sfBad)
    (hin : inputFiles sfBad = none)
    (hgood : processTriplesMap qs inputFiles tmGood = Except.ok lGood) :
    processCSVWithRML qs inputFiles = Except.ok lGood := by
  have hbad : processTriplesMap qs inputFiles tmBad = Except.ok [] :=
    processTriplesMap_unbound qs inputFiles tmBad sfBad hls hin
  rcases horder with h | h <;>
    simp [processCSVWithRML, h, List.foldlM, hgood, hbad, Except.map,
      Bind.bind, Except.bind, pure, Except.pure]

theorem missing_source_tolerance_witness :
    processCSVWithRML
      [⟨"tm1", rdfTypeIRI, rrTriplesMapIRI⟩,
       ⟨"tm2", rdfTypeIRI, rrTriplesMapIRI⟩,
       ⟨"tm1", rmlLogicalSourceIRI, "ls1"⟩,
       ⟨"ls1", rmlSourceIRI, "f.csv"⟩,
       ⟨"tm2", rmlLogicalSourceIRI, "ls2"⟩,
       ⟨"ls2", rmlSourceIRI, "g.csv"⟩,
       ⟨"tm1", rrSubjectMapIRI, "sm1"⟩,
       ⟨"sm1", rrTemplateIRI, "http://e/" ++ placeholder "id"⟩,
       ⟨"tm1", rrPredicateObjectMapIRI, "po1"⟩,
       ⟨"po1", rrPredicateMapIRI, "pm1"⟩,
       ⟨"pm1", rrConstantIRI, "http://s/p1"⟩,
       ⟨"po1", rrObjectMapIRI, "om1"⟩,
       ⟨"om1", rmlReferenceIRI, "id"⟩,
       ⟨"tm2", rrSubjectMapIRI, "sm2"⟩,
       ⟨"sm2", rrTemplateIRI, "http://e/" ++ placeholder "id"⟩]
      (fun k => if k = "f.csv" then some "id\n1" else none)
      = Except.ok [⟨"http://e/1", "http://s/p1", "1"⟩] :=
  missing_source_tolerance _ _ "tm1" "tm2" "g.csv"
    [⟨"http://e/1", "http://s/p1", "1"⟩] (Or.inl rfl) rfl rfl rfl

/-- Claim C7, counterexample: Empty source content does not produce a
fatal `SourceReadError`: the falsy-content guard `!inputFiles[sourceFile]`
(line 157) treats the empty string like a missing source, so a run whose
only triples-map is bound to empty content succeeds with zero triples
instead of propagating an error. -/
theorem empty_source_counterexample :
    processCSVWithRML
      [⟨"tm1", rdfTypeIRI, rrTriplesMapIRI⟩,
       ⟨"tm1", rmlLogicalSourceIRI, "ls1"⟩,
       ⟨"ls1", rmlSourceIRI, "f.csv"⟩,
       ⟨"tm1", rrSubjectMapIRI, "sm1"⟩,
       ⟨"sm1", rrTemplateIRI, "http://e/" ++ placeholder "id"⟩,
       ⟨"tm1", rrPredicateObjectMapIRI, "po1"⟩,
       ⟨"po1", rrPredicateMapIRI, "pm1"⟩,
       ⟨"pm1", rrConstantIRI, "http://s/p1"⟩,
       ⟨"po1", rrObjectMapIRI, "om1"⟩,
       ⟨"om1", rmlReferenceIRI, "id"⟩]
      (fun k => if k = "f.csv" then some "" else none)
      = Except.ok [] := rfl

/-- Claim C7, amended: A triples-map bound to a source whose raw content is
the empty string is skipped exactly like a missing source: it
contributes no triples and no error is raised; the content never
reaches the CSV parser. -/
theorem empty_source_skipped (qs : List Quad)
    (inputFiles : String → Option String) (tm sf : String)
    (hls : logicalSourceOf qs tm = some sf)
    (hin : inputFiles sf = some "") :
    processTriplesMap qs inputFiles tm = Except.ok [] := by
  simp only [processTriplesMap, hls, hin]
  by_cases hsf : sf = "" <;> simp [hsf]

theorem empty_source_skipped_witness :
    processTriplesMap
      [⟨"tm1", rdfTypeIRI, rrTriplesMapIRI⟩,
       ⟨"tm1", rmlLogicalSourceIRI, "ls1"⟩,
       ⟨"ls1", rmlSourceIRI, "f.csv"⟩]
      (fun k => if k = "f.csv" then some "" else none)
      "tm1" = Except.ok [] :=
  empty_source_skipped _ _ "tm1" "f.csv" rfl rfl

/-- Claim C3, counterexample: An object map carrying a constant but no
reference emits no triple: lines 208-209 require `rml:reference` on the
object map and `continue` otherwise, never consulting `rr:constant`
there.  With one bound row and one predicate-object map whose object
map has only `rr:constant`, the run emits zero triples instead of the
claimed constant-object triple. -/
theorem constant_object_counterexample :
    processCSVWithRML
      [⟨"tm1", rdfTypeIRI, rrTriplesMapIRI⟩,
       ⟨"tm1", rmlLogicalSourceIRI, "ls1"⟩,
       ⟨"ls1", rmlSourceIRI, "f.csv"⟩,
       ⟨"tm1", rrSubjectMapIRI, "sm1"⟩,
       ⟨"sm1", rrTemplateIRI, "http://e/" ++ placeholder "id"⟩,
       ⟨"tm1", rrPredicateObjectMapIRI, "po1"⟩,
       ⟨"po1", rrPredicateMapIRI, "pm1"⟩,
       ⟨"pm1", rrConstantIRI, "http://s/p1"⟩,
       ⟨"po1", rrObjectMapIRI, "om1"⟩,
       ⟨"om1", rrConstantIRI, "http://e/c"⟩]
      (fun k => if k = "f.csv" then some "id\n1" else none)
      = Except.ok [] := rfl

/-- Claim C3, amended: Only object maps with an `rml:reference` emit a
triple: a predicate-object map whose object map lacks a reference (even
one that carries a constant) is skipped and contributes no triple. -/
theorem object_reference_required (qs : List Quad) (ps : PState) (row : Obj)
    (s po : String) (pmq pcq omq : Quad)
    (h1 : (getQuads qs po rrPredicateMapIRI).head? = some pmq)
    (h2 : (getQuads qs pmq.obj rrConstantIRI).head? = some pcq)
    (h3 : (getQuads qs po rrObjectMapIRI).head? = some omq)
    (h4 : (getQuads qs omq.obj rmlReferenceIRI).head? = none) :
    processPOMap qs ps row s po = [] := by
  simp [processPOMap, h1, h2, h3, h4]

theorem object_reference_required_witness :
    processPOMap
      [⟨"po1", rrPredicateMapIRI, "pm1"⟩,
       ⟨"pm1", rrConstantIRI, "http://s/p1"⟩,
       ⟨"po1", rrObjectMapIRI, "om1"⟩,
       ⟨"om1", rrConstantIRI, "http://e/c"⟩]
      [] [("id", JVal.str "1")] "http://e/1" "po1" = [] :=
  object_reference_required _ [] _ "http://e/1" "po1"
    ⟨"po1", rrPredicateMapIRI, "pm1"⟩ ⟨"pm1", rrConstantIRI, "http://s/p1"⟩
    ⟨"po1", rrObjectMapIRI, "om1"⟩ rfl rfl rfl rfl

theorem foldlM_ok (qs : List Quad) (inputFiles : String → Option String) :
    ∀ (tms : List String) (acc l : List OutTriple),
      tms.foldlM (fun acc tm => (processTriplesMap qs inputFiles tm).map
        (fun ts => acc ++ ts)) acc = Except.ok l →
      l = acc ++ tms.flatMap (fun tm =>
        (processTriplesMap qs inputFiles tm).toOption.getD []) := by
  intro tms
  induction tms with
  | nil =>
    intro acc l h
    simp only [List.foldlM_nil, pure, Except.pure, Except.ok.injEq] at h
    simp [h]
  | cons tm rest ih =>
    intro acc l h
    rw [List.foldlM_cons] at h
    cases hp : processTriplesMap qs inputFiles tm with
    | error e =>
      rw [hp] at h
      simp [Except.map, Bind.bind, Except.bind] at h
    | ok ts =>
      rw [hp] at h
      simp only [Except.map, Bind.bind, Except.bind] at h
      rw [ih (acc ++ ts) l h]
      simp [hp, List.append_assoc, Except.toOption]

/-- Claim C8: Emission order: a successful run's triple sequence is the
concatenation, in descriptor triples-map order, of the per-map outputs;
and each bound triples-map's contribution is the row-major join of the
per-row outputs, each of which follows predicate-object-map order —
i.e. triples are emitted in (triples-map, row, predicate-object-map)
lexicographic order. -/
theorem emission_order (qs : List Quad) (inputFiles : String → Option String)
    (l : List OutTriple)
    (hrun : processCSVWithRML qs inputFiles = Except.ok l) :
    l = (extractTriplesMaps qs).flatMap (fun tm =>
        (processTriplesMap qs inputFiles tm).toOption.getD [])
    ∧ ∀ (tm sf content : String) (csvData : CSVData) (smq tq : Quad),
        logicalSourceOf qs tm = some sf → sf ≠ "" →
        inputFiles sf = some content → content ≠ "" →
        parseCSV content = Except.ok csvData →
        (getQuads qs tm rrSubjectMapIRI).head? = some smq →
        (getQuads qs smq.obj rrTemplateIRI).head? = some tq →
        processTriplesMap qs inputFiles tm = Except.ok
          (csvData.rows.flatMap (fun row =>
            (getQuads qs tm rrPredicateObjectMapIRI).flatMap (fun pq =>
              processPOMap qs csvData.pollution row
                (resolveSubject csvData.pollution tq.obj csvData.headers row)
                pq.obj))) := by
  constructor
  · have h := foldlM_ok qs inputFiles (extractTriplesMaps qs) [] l hrun
    simpa using h
  · intro tm sf content csvData smq tq h1 h2 h3 h4 h5 h6 h7
    exact processTriplesMap_eq qs inputFiles tm sf content csvData smq tq
      h1 h2 h3 h4 h5 h6 h7

theorem emission_order_witness :
    ([⟨"http://e/1", "http://s/p1", "1"⟩] : List OutTriple) =
      (extractTriplesMaps
        [⟨"tm1", rdfTypeIRI, rrTriplesMapIRI⟩,
         ⟨"tm1", rmlLogicalSourceIRI, "ls1"⟩,
         ⟨"ls1", rmlSourceIRI, "f.csv"⟩,
         ⟨"tm1", rrSubjectMapIRI, "sm1"⟩,
         ⟨"sm1", rrTemplateIRI, "http://e/" ++ placeholder "id"⟩,
         ⟨"tm1", rrPredicateObjectMapIRI, "po1"⟩,
         ⟨"po1", rrPredicateMapIRI, "pm1"⟩,
         ⟨"pm1", rrConstantIRI, "http://s/p1"⟩,
         ⟨"po1", rrObjectMapIRI, "om1"⟩,
         ⟨"om1", rmlReferenceIRI, "id"⟩]).flatMap (fun tm =>
        (processTriplesMap
          [⟨"tm1", rdfTypeIRI, rrTriplesMapIRI⟩,
           ⟨"tm1", rmlLogicalSourceIRI, "ls1"⟩,
           ⟨"ls1", rmlSourceIRI, "f.csv"⟩,
           ⟨"tm1", rrSubjectMapIRI, "sm1"⟩,
           ⟨"sm1", rrTemplateIRI, "http://e/" ++ placeholder "id"⟩,
           ⟨"tm1", rrPredicateObjectMapIRI, "po1"⟩,
           ⟨"po1", rrPredicateMapIRI, "pm1"⟩,
           ⟨"pm1", rrConstantIRI, "http://s/p1"⟩,
           ⟨"po1", rrObjectMapIRI, "om1"⟩,
           ⟨"om1", rmlReferenceIRI, "id"⟩]
          (fun k => if k = "f.csv" then some "id\n1" else none)
          tm).toOption.getD []) :=
  (emission_order
    [⟨"tm1", rdfTypeIRI, rrTriplesMapIRI⟩,
     ⟨"tm1", rmlLogicalSourceIRI, "ls1"⟩,
     ⟨"ls1", rmlSourceIRI, "f.csv"⟩,
     ⟨"tm1", rrSubjectMapIRI, "sm1"⟩,
     ⟨"sm1", rrTemplateIRI, "http://e/" ++ placeholder "id"⟩,
     ⟨"tm1", rrPredicateObjectMapIRI, "po1"⟩,
     ⟨"po1", rrPredicateMapIRI, "pm1"⟩,
     ⟨"pm1", rrConstantIRI, "http://s/p1"⟩,
     ⟨"po1", rrObjectMapIRI, "om1"⟩,
     ⟨"om1", rmlReferenceIRI, "id"⟩]
    (fun k => if k = "f.csv" then some "id\n1" else none)
    [⟨"http://e/1", "http://s/p1", "1"⟩] rfl).1

/-- Claim C9: Determinism: the mapping run is a pure function of the
descriptor string and the source table (the core consults no external
state), so two invocations with equal inputs produce identical triple
sequences, including identical order. -/
theorem mapping_deterministic (parseRMLRules : String → Except String (List Quad))
    (rml1 rml2 : String) (inp1 inp2 : String → Option String)
    (hrml : rml1 = rml2) (hinp : ∀ k, inp1 k = inp2 k) :
    doMapping parseRMLRules rml1 inp1 = doMapping parseRMLRules rml2 inp2 := by
  subst hrml
  rw [funext hinp]

theorem mapping_deterministic_witness :
    doMapping (fun _ => Except.ok []) "m" (fun _ => none)
      = doMapping (fun _ => Except.ok []) "m" (fun _ => none) :=
  mapping_deterministic (fun _ => Except.ok []) "m" "m" (fun _ => none)
    (fun _ => none) rfl (fun _ => rfl)
